import Mathlib

/-!
# gotsrpc: TypeScript rendering (`typescript.go`)

A shallow embedding of the TypeScript generator of gotsrpc and theorems about it.
Go pointers that the source tests against `nil` are modelled as `Option`; every
other pointer is taken to be non-nil.  Go maps are association lists in
iteration order.
-/

set_option autoImplicit false

namespace Gotsrpc

/-! ## Data model -/

/-- Modelled from the spec: the scalar type name of the source model (a Go string type declared
outside `typescript.go`); the empty name means that the value is not a scalar. -/
abbrev ScalarType := String

/-- Modelled from the spec: the constant `ScalarTypeBool` is declared outside `typescript.go`; it
is the boolean-equivalent scalar name of the spec, Go's `bool`. -/
def ScalarTypeBool : ScalarType := "bool"

/-- Modelled from the spec: `StructRef(structName, declaringModule?)`; an empty `Package` is an
absent declaring module. -/
structure StructType where
  Name : String
  Package : String
  deriving DecidableEq, Repr

/-- Modelled from the spec: the `Value` record of the source model with the fields that
`typescript.go` reads; `StructType` and `Array` are nil-able pointers, `Array` points to a record
holding the inner value. -/
inductive Value where
  | mk (ScalarType : ScalarType) (StructType : Option StructType) (Array : Option Value)
      (IsPtr : Bool)
  deriving Repr

/-- Modelled from the spec: serialization metadata of a field (override name, ignore flag). -/
structure JSONInfo where
  Name : String
  Ignore : Bool
  deriving DecidableEq, Repr

/-- Modelled from the spec: a field, argument or return value: source name, optional
serialization metadata and its value. -/
structure Field where
  Value : Value
  Name : String
  JSONInfo : Option JSONInfo

/-- Modelled from the spec: a structure with its declaring module and ordered fields. -/
structure Struct where
  Package : String
  Name : String
  Fields : List Field

/-- Modelled from the spec: one entry of the module mapping (`config.TypeScriptMapping`). -/
structure TypeScriptMapping where
  GoPackage : String
  TypeScriptModule : String
  deriving DecidableEq, Repr

/-- A Go `map[string]V`: its entries in iteration order (keys of a real map are distinct). -/
abbrev GoMap (V : Type) := List (String × V)

/-- The expression `m[k] = v`: replaces the value of an existing key, else adds the entry. -/
def GoMap.set {V : Type} : GoMap V → String → V → GoMap V
  | [], k, v => [(k, v)]
  | (k', v') :: rest, k, v =>
    if k' = k then (k, v) :: rest else (k', v') :: GoMap.set rest k v

/-- Modelled from the spec: `config.TypeScriptMappings`, from declaring module to mapping. -/
abbrev TypeScriptMappings := GoMap TypeScriptMapping

/-! ## The line buffer `code` -/

/-- Modelled from the spec: the line buffer `code` is declared outside `typescript.go`: finished
lines, the line being written, the indentation unit and the indentation depth. -/
structure code where
  line : String
  lines : List String
  indent : String
  tabs : Nat
  deriving DecidableEq, Repr

/-- Modelled from the spec: `newCode(indent)`, an empty buffer at depth zero. -/
def newCode (indent : String) : code :=
  { line := "", lines := [], indent := indent, tabs := 0 }

/-- Modelled from the spec: `strings.Repeat(c.indent, c.tabs)`, the indentation of a line. -/
def code.pre (indent : String) : Nat → String
  | 0 => ""
  | n + 1 => indent ++ code.pre indent n

/-- Modelled from the spec: `c.ind(inc)` changes the depth by `inc`, never below zero. -/
def code.ind (c : code) (inc : Int) : code :=
  { c with tabs := ((c.tabs : Int) + inc).toNat }

/-- Modelled from the spec: `c.app(str)` appends to the line being written. -/
def code.app (c : code) (str : String) : code :=
  { c with line := c.line ++ str }

/-- Modelled from the spec: `c.nl()` finishes the line being written, indented by the depth. -/
def code.nl (c : code) : code :=
  { c with lines := c.lines ++ [code.pre c.indent c.tabs ++ c.line], line := "" }

/-- Modelled from the spec: `c.l(line)` is `c.app(line).nl()`. -/
def code.l (c : code) (line : String) : code :=
  (c.app line).nl

/-- Modelled from the spec: `c.string()` joins the finished lines with newlines. -/
def code.string (c : code) : String :=
  "\n".intercalate c.lines

/-! ## `typescript.go` -/

def goConstPseudoPackage : String := "__goConstants"

/-- Modelled from the spec: `Struct.FullName`, the fully qualified source name
`<declaringModule>.<StructName>`. -/
def Struct.FullName (s : Struct) : String :=
  s.Package ++ "." ++ s.Name

/-- `func (f *Field) tsName() string`. -/
def Field.tsName (f : Field) : String :=
  match f.JSONInfo with
  | some info => if info.Name.length > 0 then info.Name else f.Name
  | none => f.Name

/-- `func (v *Value) tsType(mappings config.TypeScriptMappings) string`. -/
def Value.tsType (mappings : TypeScriptMappings) : Value → String
  | .mk scalarType structType array isPtr =>
    if isPtr then
      match structType with
      | some st =>
        if st.Package.length > 0 then
          let tsModule :=
            match mappings.lookup st.Package with
            | some mapping => mapping.TypeScriptModule
            | none => ""
          tsModule ++ "." ++ st.Name
        else st.Name
      | none => scalarType
    else
      match array with
      | some inner => Value.tsType mappings inner ++ "[]"
      | none =>
        if scalarType.length > 0 then
          if scalarType = ScalarTypeBool then "boolean" else scalarType
        else "any"

/-- The pointer flag `v.IsPtr`. -/
def Value.IsPtr : Value → Bool
  | .mk _ _ _ isPtr => isPtr

/-- The test `f.JSONInfo != nil && f.JSONInfo.Ignore` of `renderStruct`. -/
def Field.ignored (f : Field) : Bool :=
  match f.JSONInfo with
  | some info => info.Ignore
  | none => false

/-- One iteration of the field loop of `renderStruct`. -/
def renderField (mappings : TypeScriptMappings) (ts : code) (f : Field) : code :=
  if f.ignored then ts
  else
    let ts := ts.app f.tsName
    let ts := if f.Value.IsPtr then ts.app "?" else ts
    let ts := ts.app (":" ++ f.Value.tsType mappings)
    let ts := ts.app ";"
    ts.nl

/-- `func renderStruct(str *Struct, mappings config.TypeScriptMappings, ts *code) error`: the
buffer after the call and the returned error (`none` is Go's `nil`). -/
def renderStruct (str : Struct) (mappings : TypeScriptMappings) (ts : code) :
    code × Option String :=
  let ts := ts.l ("// " ++ str.FullName)
  let ts := (ts.l ("export interface " ++ str.Name ++ " \x7b")).ind 1
  let ts := str.Fields.foldl (renderField mappings) ts
  ((ts.ind (-1)).l "\x7d", none)

/-- Modelled from the spec: `ast.BasicLit`, a constant's literal textual value. -/
structure BasicLit where
  Value : String
  deriving DecidableEq, Repr

/-- The first loop of `RenderStructsToPackages`: an empty unit map per mapped Go package. -/
def initCodeMap (mappings : TypeScriptMappings) : GoMap (GoMap code) :=
  mappings.foldl (fun codeMap entry => codeMap.set entry.2.GoPackage []) []

/-- The text of the missing-mapping error of `RenderStructsToPackages`. -/
def missingMappingError (goPackage : String) : String :=
  "missing code mapping for go package : " ++ goPackage ++
    " => you have to add a mapping from this go package to a TypeScript module in your build-config.yml in the mappings section"

/-- The loop over `structs` of `RenderStructsToPackages`, from the entries still to visit and the
current `codeMap`: the error it returns with, or the final `codeMap`. -/
def renderStructsLoop (mappings : TypeScriptMappings) :
    List (String × Option Struct) → GoMap (GoMap code) → Except String (GoMap (GoMap code))
  | [], codeMap => .ok codeMap
  | (name, none) :: _, _ => .error ("could not resolve: " ++ name)
  | (_, some str) :: rest, codeMap =>
    match codeMap.lookup str.Package with
    | none => .error (missingMappingError str.Package)
    | some packageCodeMap =>
      let rendered := renderStruct str mappings ((newCode "\t").ind 1)
      let codeMap := codeMap.set str.Package (packageCodeMap.set str.Name rendered.1)
      match rendered.2 with
      | some err => .error err
      | none => renderStructsLoop mappings rest codeMap

/-- The closure `ensureCodeInPackage` of `RenderStructsToPackages`. -/
def ensureCodeInPackage (mappedTypeScript : GoMap (GoMap code)) (goPackage : String) :
    GoMap (GoMap code) :=
  match mappedTypeScript.lookup goPackage with
  | some _ => mappedTypeScript
  | none => mappedTypeScript.set goPackage []

/-- The assignment `mappedTypeScript[goPackage][unit] = c` on an ensured package. -/
def setUnit (mappedTypeScript : GoMap (GoMap code)) (goPackage unit : String) (c : code) :
    GoMap (GoMap code) :=
  mappedTypeScript.set goPackage (((mappedTypeScript.lookup goPackage).getD []).set unit c)

/-- The loop over `mappings` of `RenderStructsToPackages` that moves the rendered units of every
mapped package into the accumulator. -/
def mergeCodeMap (mappings : TypeScriptMappings) (codeMap mappedTypeScript : GoMap (GoMap code)) :
    GoMap (GoMap code) :=
  mappings.foldl
    (fun acc entry =>
      ((codeMap.lookup entry.2.GoPackage).getD []).foldl
        (fun acc structUnit =>
          setUnit (ensureCodeInPackage acc entry.2.GoPackage) entry.2.GoPackage
            structUnit.1 structUnit.2)
        acc)
    mappedTypeScript

/-- The constants pseudo-unit of one package: comment line, opening line, one entry line per
constant name in `sort.Strings` order, closing line.  (The identifier prefix that the source
derives from the package name with `split` and `ucFirst` is never written and is left out.) -/
def renderConstants (packageName : String) (packageConstants : GoMap BasicLit) : code :=
  let constCode :=
    ((((newCode "\t").ind 1).l ("// constants from " ++ packageName)).l
      "export const GoConst = \x7b").ind 1
  let constNames := packageConstants.map (fun entry => entry.1)
  let constNames := constNames.insertionSort (fun a b => a ≤ b)
  let constCode := constNames.foldl
    (fun constCode constName =>
      match packageConstants.lookup constName with
      | some basicLit => constCode.l (constName ++ " : " ++ basicLit.Value ++ ",")
      | none => constCode)
    constCode
  (constCode.ind (-1)).l "\x7d"

/-- One iteration of the loop over `constants` of `RenderStructsToPackages`. -/
def renderConstantsStep (mappedTypeScript : GoMap (GoMap code))
    (entry : String × GoMap BasicLit) : GoMap (GoMap code) :=
  if entry.2.length > 0 then
    let mappedTypeScript := ensureCodeInPackage mappedTypeScript entry.1
    match ((mappedTypeScript.lookup entry.1).getD []).lookup goConstPseudoPackage with
    | some _ => mappedTypeScript
    | none => setUnit mappedTypeScript entry.1 goConstPseudoPackage
        (renderConstants entry.1 entry.2)
  else mappedTypeScript

/-- `func RenderStructsToPackages(structs, mappings, constants, mappedTypeScript) (err error)`:
the returned error (`none` is Go's `nil`) and the accumulator `mappedTypeScript` after the
call. -/
def RenderStructsToPackages (structs : GoMap (Option Struct)) (mappings : TypeScriptMappings)
    (constants : GoMap (GoMap BasicLit)) (mappedTypeScript : GoMap (GoMap code)) :
    Option String × GoMap (GoMap code) :=
  match renderStructsLoop mappings structs (initCodeMap mappings) with
  | .error err => (some err, mappedTypeScript)
  | .ok codeMap =>
    let mappedTypeScript := mergeCodeMap mappings codeMap mappedTypeScript
    (none, constants.foldl renderConstantsStep mappedTypeScript)

/-! ## `typescript.go`: services -/

/-- Modelled from the spec: a method with its ordered arguments and return values. -/
structure Method where
  Name : String
  Args : List Field
  Return : List Field

/-- Modelled from the spec: a service with its ordered methods. -/
structure Service where
  Name : String
  Methods : List Method

/-- Modelled from the spec: the functions of the repository that `renderService` calls and that
are declared outside `typescript.go`, taken as parameters: `lcfirst` on the method name, and the
tests `isHTTPResponseWriter` (the output-writer type) and `isHTTPRequest` (the inbound-request
type) on an argument's value. -/
structure Helpers where
  lcfirst : String → String
  isHTTPResponseWriter : Value → Bool
  isHTTPRequest : Value → Bool

/-- The global `SkipGoTSRPC` is a parameter of `RenderTypeScriptServices`; this is the block
that is written when it is false. -/
def goTSRPCHelper : String :=
  "\n".intercalate [
    "module GoTSRPC \x7b",
    "    export function call(endPoint:string, method:string, args:any[], success:any, err:any) \x7b",
    "        var request = new XMLHttpRequest();",
    "        request.withCredentials = true;",
    "        request.open(\x27POST\x27, endPoint + \"/\" + encodeURIComponent(method), true);",
    "        request.setRequestHeader(\x27Content-Type\x27, \x27application/x-www-form-urlencoded; charset=UTF-8\x27);",
    "        request.send(JSON.stringify(args));            ",
    "        request.onload = function() \x7b",
    "            if (request.status == 200) \x7b",
    "\t\t\t\ttry \x7b",
    "\t\t\t\t\tvar data = JSON.parse(request.responseText);",
    "\t\t\t\t\tsuccess.apply(null, data);",
    "\t\t\t\t\x7d catch(e) \x7b",
    "\t                err(request);",
    "\t\t\t\t\x7d",
    "            \x7d else \x7b",
    "                err(request);",
    "            \x7d",
    "        \x7d;            ",
    "        request.onerror = function() \x7b",
    "            err(request);",
    "        \x7d;",
    "    \x7d",
    "\x7d"]

/-- `fmt.Sprint(index)` for a loop index: its decimal representation. -/
def sprintIndex (index : Nat) : String :=
  Nat.repr index

/-- The loop over `method.Args` of `renderService`, from the current index, the arguments still
to visit and the lists `args` and `callArgs` built so far. -/
def renderArgs (h : Helpers) (mappings : TypeScriptMappings) :
    Nat → List Field → List String × List String → List String × List String
  | _, [], acc => acc
  | index, arg :: rest, (args, callArgs) =>
    if index = 0 ∧ h.isHTTPResponseWriter arg.Value = true then
      renderArgs h mappings (index + 1) rest (args, callArgs)
    else if index = 1 ∧ h.isHTTPRequest arg.Value = true then
      renderArgs h mappings (index + 1) rest (args, callArgs)
    else
      renderArgs h mappings (index + 1) rest
        (args ++ [arg.tsName ++ ":" ++ arg.Value.tsType mappings], callArgs ++ [arg.Name])

/-- The name that the loop over `method.Return` gives to a return value at an index. -/
def retArgName (index : Nat) (retField : Field) : String :=
  if retField.tsName.length = 0 then
    if index > 0 then "ret" ++ ("_" ++ sprintIndex index) else "ret"
  else retField.tsName

/-- The loop over `method.Return` of `renderService`, from the current index, the return values
still to visit and the list `retArgs` built so far. -/
def renderRetArgs (mappings : TypeScriptMappings) :
    Nat → List Field → List String → List String
  | _, [], retArgs => retArgs
  | index, retField :: rest, retArgs =>
    renderRetArgs mappings (index + 1) rest
      (retArgs ++ [retArgName index retField ++ ":" ++ retField.Value.tsType mappings])

/-- One iteration of the loop over `service.Methods` of `renderService`. -/
def renderMethod (h : Helpers) (mappings : TypeScriptMappings) (ts : code) (method : Method) :
    code :=
  let ts := ts.app (h.lcfirst method.Name ++ "(")
  let rendered := renderArgs h mappings 0 method.Args ([], [])
  let args := rendered.1
  let callArgs := rendered.2
  let ts := ts.app (", ".intercalate args)
  let retArgs := renderRetArgs mappings 0 method.Return []
  let ts := if args.length > 0 then ts.app ", " else ts
  let ts := ts.app ("success:(" ++ ", ".intercalate retArgs ++ ") => void")
  let ts := (ts.app ", err:(request:XMLHttpRequest) => void) \x7b").nl
  let ts := ts.ind 1
  let ts := ts.l ("GoTSRPC.call(this.endPoint, \"" ++ method.Name ++ "\", [" ++
    ", ".intercalate callArgs ++ "], success, err);")
  let ts := ts.ind (-1)
  let ts := ts.app "\x7d"
  ts.nl

/-- `func renderService(service *Service, mappings config.TypeScriptMappings, ts *code) error`:
the buffer after the call and the returned error (`none` is Go's `nil`). -/
def renderService (h : Helpers) (service : Service) (mappings : TypeScriptMappings)
    (ts : code) : code × Option String :=
  let clientName := service.Name ++ "Client"
  let ts := (ts.l ("export class " ++ clientName ++ " \x7b")).ind 1
  let ts := ts.l ("static defaultInst = new " ++ clientName ++ ";")
  let ts := ts.l "constructor(public endPoint:string = \"/service\") \x7b  \x7d"
  let ts := service.Methods.foldl (renderMethod h mappings) ts
  let ts := ts.ind (-1)
  (ts.l "\x7d", none)

/-- The loop over `services` of `RenderTypeScriptServices`: the buffer and the error it stops
with (`none` when every service was rendered). -/
def renderServicesLoop (h : Helpers) (mappings : TypeScriptMappings) :
    List Service → code → code × Option String
  | [], ts => (ts, none)
  | service :: rest, ts =>
    let rendered := renderService h service mappings ts
    match rendered.2 with
    | some err => (rendered.1, some err)
    | none => renderServicesLoop h mappings rest rendered.1

/-- `func RenderTypeScriptServices(services, mappings, tsModuleName) (typeScript string, err
error)`, with the global `SkipGoTSRPC` as a parameter. -/
def RenderTypeScriptServices (h : Helpers) (SkipGoTSRPC : Bool) (services : List Service)
    (mappings : TypeScriptMappings) (tsModuleName : String) : String × Option String :=
  let ts := newCode "\t"
  let ts := if !SkipGoTSRPC then ts.l goTSRPCHelper else ts
  let ts := ts.l ("module " ++ tsModuleName ++ " \x7b")
  let ts := ts.ind 1
  let rendered := renderServicesLoop h mappings services ts
  match rendered.2 with
  | some err => ("", some err)
  | none =>
    let ts := rendered.1.ind (-1)
    let ts := ts.l "\x7d"
    (ts.string, none)

/-! ## Definitions used to state the properties -/

/-- The property line of the spec for a field: `<effectiveName><?><:><typeOf(value)><;>`, the
marker `?` being present exactly when the value has the pointer flag set. -/
def specPropertyLine (mappings : TypeScriptMappings) (f : Field) : String :=
  f.tsName ++ (if f.Value.IsPtr then "?" else "") ++ ":" ++ f.Value.tsType mappings ++ ";"

/-- The fields of a structure that are not serialization-ignored, in input order. -/
def Struct.renderedFields (str : Struct) : List Field :=
  str.Fields.filter (fun f => !f.ignored)

/-- A buffer with no pending line: finished lines, indentation unit and depth. -/
def code.fresh (lines : List String) (indent : String) (tabs : Nat) : code :=
  { line := "", lines := lines, indent := indent, tabs := tabs }

/-- The structure of the end-to-end example: `Struct` in `pkg/a` with the fields `Name`
(string, override name `name`) and `Count` (pointer to number, no override). -/
def exampleStruct : Struct :=
  { Package := "pkg/a", Name := "Struct",
    Fields := [
      { Value := .mk "string" none none false, Name := "Name",
        JSONInfo := some { Name := "name", Ignore := false } },
      { Value := .mk "number" none none true, Name := "Count", JSONInfo := none }] }

/-- The module mapping of the end-to-end example: `pkg/a` is mapped to `Mod`. -/
def exampleMappings : TypeScriptMappings :=
  [("pkg/a", { GoPackage := "pkg/a", TypeScriptModule := "Mod" })]

/-- The lines that `renderStruct` adds to a buffer without a pending line. -/
def emittedLines (str : Struct) (mappings : TypeScriptMappings) (lines : List String)
    (indent : String) (tabs : Nat) : List String :=
  (renderStruct str mappings (code.fresh lines indent tabs)).1.lines.drop lines.length

/-- The value `ArrayOf(inner)` without the pointer flag. -/
def arrayOf (inner : Value) : Value :=
  .mk "" none (some inner) false

/-- The value `inner` wrapped in `n` nested non-pointer `ArrayOf` layers. -/
def nestedArray : Nat → Value → Value
  | 0, inner => inner
  | n + 1, inner => arrayOf (nestedArray n inner)

/-- The text of `n` copies of `[]`. -/
def brackets : Nat → String
  | 0 => ""
  | n + 1 => brackets n ++ "[]"

/-- The keys of a Go map. -/
def GoMap.keys {V : Type} (m : GoMap V) : List String :=
  m.map (fun entry => entry.1)

/-- The Go package has a module-mapping entry: an entry of the mapping whose `GoPackage` is that
package (`RenderStructsToPackages` files the entries under their `GoPackage`). -/
def hasMapping (mappings : TypeScriptMappings) (goPackage : String) : Prop :=
  ∃ entry ∈ mappings, entry.2.GoPackage = goPackage

instance (mappings : TypeScriptMappings) (goPackage : String) :
    Decidable (hasMapping mappings goPackage) := by
  unfold hasMapping
  infer_instance

/-- A structure set with the structure `Foo` of the Go package `pkg/x` and the structure `Bar`
of the Go package `pkg/y`, visited in this order. -/
def unmappedStructs : GoMap (Option Struct) :=
  [("Foo", some { Package := "pkg/x", Name := "Foo", Fields := [] }),
    ("Bar", some { Package := "pkg/y", Name := "Bar", Fields := [] })]

/-- An accumulator that already holds a unit `Old` for the Go package `pkg/a`. -/
def exampleAccumulator : GoMap (GoMap code) :=
  [("pkg/a", [("Old", code.fresh ["old"] "\t" 1)])]

/-- A constant set per Go package: the constants `B` and `A` of `pkg/c`. -/
def exampleConstants : GoMap (GoMap BasicLit) :=
  [("pkg/c", [("B", { Value := "2" }), ("A", { Value := "1" })])]

/-- The Go lookup `mappedTypeScript[goPackage][unit]` with its presence flag (a missing package
gives a nil map, in which nothing is found). -/
def lookupUnit (mappedTypeScript : GoMap (GoMap code)) (goPackage unit : String) : Option code :=
  ((mappedTypeScript.lookup goPackage).getD []).lookup unit

/-- The entry line of the constants pseudo-unit for one constant, after its indentation. -/
def specConstantLine (entry : String × BasicLit) : String :=
  entry.1 ++ " : " ++ entry.2.Value ++ ","

/-- The entry of a constant set under a constant name (an empty literal if there is none). -/
def constantEntry (packageConstants : GoMap BasicLit) (constName : String) : String × BasicLit :=
  (constName, (packageConstants.lookup constName).getD { Value := "" })

/-- One assignment of the merge loop of `RenderStructsToPackages`: Go package, unit name and
unit text. -/
abbrev UnitWrite := String × String × code

/-- The assignment `ensureCodeInPackage(p); mappedTypeScript[p][unit] = c` of the merge loop. -/
def applyWrite (acc : GoMap (GoMap code)) (w : UnitWrite) : GoMap (GoMap code) :=
  setUnit (ensureCodeInPackage acc w.1) w.1 w.2.1 w.2.2

/-- The assignments that the merge loop of `RenderStructsToPackages` makes, in order. -/
def mergeWrites (mappings : TypeScriptMappings) (codeMap : GoMap (GoMap code)) :
    List UnitWrite :=
  mappings.flatMap (fun entry =>
    ((codeMap.lookup entry.2.GoPackage).getD []).map
      (fun structUnit => (entry.2.GoPackage, structUnit.1, structUnit.2)))

/-- A structure set with the single structure of the end-to-end example. -/
def exampleStructs : GoMap (Option Struct) :=
  [("Struct", some exampleStruct)]

/-- Modelled from the spec: the output-writer type, which the source's trace message names
`http.ResponseWriter`: a reference to `ResponseWriter` of `net/http`. -/
def Value.isHTTPResponseWriter : Value → Bool
  | .mk _ (some st) _ _ => st.Name == "ResponseWriter" && st.Package == "net/http"
  | .mk _ none _ _ => false

/-- Modelled from the spec: the inbound-request type, which the source's trace message names
`*http.Request`: a pointer to `Request` of `net/http`. -/
def Value.isHTTPRequest : Value → Bool
  | .mk _ (some st) _ isPtr => isPtr && st.Name == "Request" && st.Package == "net/http"
  | .mk _ none _ _ => false

/-- An instance of the parameters of `renderService` for the examples: lower-casing of a
leading ASCII letter and the two tests above. -/
def httpHelpers : Helpers :=
  { lcfirst := fun s =>
      match s.data with
      | [] => ""
      | c :: cs => String.mk (c.toLower :: cs)
    isHTTPResponseWriter := Value.isHTTPResponseWriter
    isHTTPRequest := Value.isHTTPRequest }

/-- The argument `w http.ResponseWriter`. -/
def writerArg : Field :=
  { Value := .mk "" (some { Name := "ResponseWriter", Package := "net/http" }) none false,
    Name := "w", JSONInfo := none }

/-- The argument `r *http.Request`. -/
def requestArg : Field :=
  { Value := .mk "" (some { Name := "Request", Package := "net/http" }) none true,
    Name := "r", JSONInfo := none }

/-- The argument `id string`. -/
def idArg : Field :=
  { Value := .mk "string" none none false, Name := "id", JSONInfo := none }

/-- The argument `userID string` carrying the serialization override name `user_id`. -/
def overrideArg : Field :=
  { Value := .mk "string" none none false, Name := "userID",
    JSONInfo := some { Name := "user_id", Ignore := false } }

/-- The method `Get(w http.ResponseWriter, r *http.Request, id string) (string, bool)`. -/
def exampleMethod : Method :=
  { Name := "Get", Args := [writerArg, requestArg, idArg],
    Return := [
      { Value := .mk "string" none none false, Name := "", JSONInfo := none },
      { Value := .mk "bool" none none false, Name := "", JSONInfo := none }] }

/-- The method `Get` with the request before the writer. -/
def swappedMethod : Method :=
  { Name := "Get", Args := [requestArg, writerArg, idArg], Return := [] }

/-- The method `Find(userID string)` whose argument carries an override name. -/
def overrideMethod : Method :=
  { Name := "Find", Args := [overrideArg], Return := [] }

/-- The rendered parameter of the spec for an argument: `<effectiveName>:<typeOf(value)>`. -/
def specParameter (mappings : TypeScriptMappings) (arg : Field) : String :=
  arg.tsName ++ ":" ++ arg.Value.tsType mappings

/-- The name of the spec for a return value at an index: its effective name if non-empty, else
`ret` at index 0 and `ret_<index>` at a later index. -/
def specRetName (index : Nat) (retField : Field) : String :=
  if retField.tsName = "" then
    if index = 0 then "ret" else "ret_" ++ Nat.repr index
  else retField.tsName

/-- The lines of the spec for a method of a client class, from its rendered parameters, its
call arguments and its success-callback parameters: the signature line, the call of the
transport primitive one level deeper, and the closing line. -/
def specMethodLines (h : Helpers) (method : Method) (params callArgs retArgs : List String)
    (indent : String) (tabs : Nat) : List String :=
  [code.pre indent tabs ++
      (h.lcfirst method.Name ++ "(" ++ ", ".intercalate params ++
        (if params.length > 0 then ", " else "") ++
        "success:(" ++ ", ".intercalate retArgs ++ ") => void" ++
        ", err:(request:XMLHttpRequest) => void) \x7b"),
    code.pre indent (tabs + 1) ++
      ("GoTSRPC.call(this.endPoint, \"" ++ method.Name ++ "\", [" ++
        ", ".intercalate callArgs ++ "], success, err);"),
    code.pre indent tabs ++ "\x7d"]

/-- The value that a list of decimal digit characters denotes. -/
def decodeDigits (acc : Nat) (digits : List Char) : Nat :=
  digits.foldl (fun a c => 10 * a + (c.toNat - 48)) acc

/-- The lines that `renderMethod` adds for a method to a buffer without a pending line. -/
def methodLines (h : Helpers) (mappings : TypeScriptMappings) (indent : String) (tabs : Nat)
    (method : Method) : List String :=
  specMethodLines h method
    (renderArgs h mappings 0 method.Args ([], [])).1
    (renderArgs h mappings 0 method.Args ([], [])).2
    (renderRetArgs mappings 0 method.Return []) indent tabs

/-- The lines of the client class of a service: the class line, the default instance and the
constructor one level deeper, the lines of the methods in order, and the closing line. -/
def specServiceLines (h : Helpers) (mappings : TypeScriptMappings) (indent : String) (tabs : Nat)
    (service : Service) : List String :=
  [code.pre indent tabs ++ ("export class " ++ (service.Name ++ "Client") ++ " \x7b"),
    code.pre indent (tabs + 1) ++
      ("static defaultInst = new " ++ (service.Name ++ "Client") ++ ";"),
    code.pre indent (tabs + 1) ++
      "constructor(public endPoint:string = \"/service\") \x7b  \x7d"] ++
    service.Methods.flatMap (methodLines h mappings indent (tabs + 1)) ++
    [code.pre indent tabs ++ "\x7d"]

/-- The service `Users` with the example method. -/
def exampleService : Service :=
  { Name := "Users", Methods := [exampleMethod] }

/-- The fields of a structure that the spec keeps, in input order: those that are not
serialization-ignored, that is without serialization metadata or with metadata that does not
set the ignore flag. -/
def Struct.specKeptFields (str : Struct) : List Field :=
  str.Fields.filter (fun f =>
    match f.JSONInfo with
    | some info => !info.Ignore
    | none => true)

/-- The effective name of the spec for a field: the serialization override name when one is
present (metadata with a non-empty name), else the source name. -/
def specEffectiveName (f : Field) : String :=
  match f.JSONInfo with
  | some info => if info.Name = "" then f.Name else info.Name
  | none => f.Name

/-- An accumulator that already holds a constants pseudo-unit for the Go package `pkg/a`. -/
def pseudoAccumulator : GoMap (GoMap code) :=
  [("pkg/a", [("__goConstants", code.fresh ["old constants"] "\t" 1)])]

/-- A structure set whose only structure, of the Go package `pkg/a`, is named
`__goConstants`. -/
def collidingStructs : GoMap (Option Struct) :=
  [("__goConstants", some { Package := "pkg/a", Name := "__goConstants", Fields := [] })]

/-- A constant set for the Go package `pkg/a`: the constant `A`. -/
def collidingConstants : GoMap (GoMap BasicLit) :=
  [("pkg/a", [("A", { Value := "1" })])]

/-! ## Lemmas on the line buffer and `renderStruct` -/

theorem renderField_fresh (mappings : TypeScriptMappings) (f : Field) (lines : List String)
    (indent : String) (tabs : Nat) :
    renderField mappings (code.fresh lines indent tabs) f =
      if f.ignored then code.fresh lines indent tabs
      else code.fresh (lines ++ [code.pre indent tabs ++ specPropertyLine mappings f])
        indent tabs := by
  unfold renderField
  by_cases hi : f.ignored = true
  · simp [hi]
  · have hq : ∀ x : String, "?" ++ (":" ++ x) = "?:" ++ x := fun x => by
      rw [← String.append_assoc]; rfl
    by_cases hp : f.Value.IsPtr = true
    · simp [hi, hp, code.fresh, code.app, code.nl, specPropertyLine, String.append_assoc, hq]
    · simp [hi, hp, code.fresh, code.app, code.nl, specPropertyLine, String.append_assoc]

theorem foldl_renderField_fresh (mappings : TypeScriptMappings) (fields : List Field) :
    ∀ (lines : List String) (indent : String) (tabs : Nat),
      fields.foldl (renderField mappings) (code.fresh lines indent tabs) =
        code.fresh
          (lines ++ (fields.filter (fun f => !f.ignored)).map
            (fun f => code.pre indent tabs ++ specPropertyLine mappings f))
          indent tabs := by
  induction fields with
  | nil => intro lines indent tabs; simp
  | cons f rest ih =>
    intro lines indent tabs
    rw [List.foldl_cons, renderField_fresh]
    by_cases hi : f.ignored = true
    · simp [hi, ih]
    · simp [hi, ih]

theorem renderStruct_fresh (str : Struct) (mappings : TypeScriptMappings) (lines : List String)
    (indent : String) (tabs : Nat) :
    renderStruct str mappings (code.fresh lines indent tabs) =
      (code.fresh
        (lines ++
          [code.pre indent tabs ++ ("// " ++ str.FullName),
            code.pre indent tabs ++ ("export interface " ++ str.Name ++ " \x7b")] ++
          str.renderedFields.map
            (fun f => code.pre indent (tabs + 1) ++ specPropertyLine mappings f) ++
          [code.pre indent tabs ++ "\x7d"])
        indent tabs, none) := by
  have h1 : (((code.fresh lines indent tabs).l ("// " ++ str.FullName)).l
        ("export interface " ++ str.Name ++ " \x7b")).ind 1 =
      code.fresh (lines ++ [code.pre indent tabs ++ ("// " ++ str.FullName),
        code.pre indent tabs ++ ("export interface " ++ str.Name ++ " \x7b")]) indent (tabs + 1) := by
    simp [code.fresh, code.l, code.app, code.nl, code.ind]
  unfold renderStruct
  simp only [h1, foldl_renderField_fresh]
  simp [code.fresh, code.l, code.app, code.nl, code.ind, Struct.renderedFields]

/-! ## Theorems -/

/-- C1: rendering the example structure `Struct` of `pkg/a` (mapped to `Mod`) with the fields
`Name` (string, override name `name`) and `Count` (pointer to number) onto any buffer without
a pending line adds exactly the lines `// pkg/a.Struct`, `export interface Struct {`,
`name:string;`, `Count?:number;` and the closing `}`, each behind its indentation, and returns
no error. -/
theorem renderStruct_example_lines (lines : List String) (indent : String) (tabs : Nat) :
    renderStruct exampleStruct exampleMappings (code.fresh lines indent tabs) =
      (code.fresh
        (lines ++
          [code.pre indent tabs ++ "// pkg/a.Struct",
            code.pre indent tabs ++ "export interface Struct \x7b",
            code.pre indent (tabs + 1) ++ "name:string;",
            code.pre indent (tabs + 1) ++ "Count?:number;",
            code.pre indent tabs ++ "\x7d"])
        indent tabs, none) := by
  rw [renderStruct_fresh]
  have hf : exampleStruct.renderedFields = exampleStruct.Fields := rfl
  have h1 : "// " ++ exampleStruct.FullName = "// pkg/a.Struct" := by decide
  have h2 : "export interface " ++ exampleStruct.Name ++ " \x7b" = "export interface Struct \x7b" := by
    decide
  have h3 : exampleStruct.Fields.map (specPropertyLine exampleMappings) =
      ["name:string;", "Count?:number;"] := by decide
  simp only [exampleStruct, List.map_cons, List.map_nil, List.cons.injEq, and_true] at h3
  rw [hf, h1, h2]
  simp [exampleStruct, h3]

theorem emittedLines_eq (str : Struct) (mappings : TypeScriptMappings) (lines : List String)
    (indent : String) (tabs : Nat) :
    emittedLines str mappings lines indent tabs =
      [code.pre indent tabs ++ ("// " ++ str.FullName),
        code.pre indent tabs ++ ("export interface " ++ str.Name ++ " \x7b")] ++
      str.renderedFields.map
        (fun f => code.pre indent (tabs + 1) ++ specPropertyLine mappings f) ++
      [code.pre indent tabs ++ "\x7d"] := by
  unfold emittedLines
  rw [renderStruct_fresh]
  simp [code.fresh]

/-- C2: for every structure, the lines that `renderStruct` adds are the comment line, the
`export interface` line, then for every non-ignored field `f`, in order, the line
`tsName(f) ++ m ++ ":" ++ tsType(f.Value) ++ ";"` behind its indentation, where `m` is `?` when
`f.Value` has the pointer flag set and empty otherwise, then the closing line. -/
theorem renderStruct_property_lines (str : Struct) (mappings : TypeScriptMappings)
    (lines : List String) (indent : String) (tabs : Nat) :
    (renderStruct str mappings (code.fresh lines indent tabs)).1.lines =
      lines ++
        [code.pre indent tabs ++ ("// " ++ str.FullName),
          code.pre indent tabs ++ ("export interface " ++ str.Name ++ " \x7b")] ++
        (str.Fields.filter (fun f => !f.ignored)).map
          (fun f => code.pre indent (tabs + 1) ++
            (f.tsName ++ (if f.Value.IsPtr = true then "?" else "") ++ ":" ++
              f.Value.tsType mappings ++ ";")) ++
        [code.pre indent tabs ++ "\x7d"] := by
  rw [renderStruct_fresh]
  simp [code.fresh, Struct.renderedFields, specPropertyLine]

theorem length_pos_of_ne_empty (s : String) (h : s ≠ "") : s.length > 0 := by
  rcases s with ⟨data⟩
  cases data with
  | nil => exact absurd rfl h
  | cons c cs => simp [String.length]

theorem specKeptFields_eq (str : Struct) : str.specKeptFields = str.renderedFields := by
  unfold Struct.specKeptFields Struct.renderedFields
  apply List.filter_congr
  intro f _
  unfold Field.ignored
  cases f.JSONInfo <;> rfl

theorem specEffectiveName_eq (f : Field) : specEffectiveName f = f.tsName := by
  unfold specEffectiveName Field.tsName
  cases f.JSONInfo with
  | none => rfl
  | some info =>
    by_cases hn : info.Name = ""
    · simp [hn]
    · have hlen := length_pos_of_ne_empty info.Name hn
      simp [hn, hlen]

/-- C3: for every structure with `k` fields that are not serialization-ignored (fields without
serialization metadata or whose metadata does not set the ignore flag), `renderStruct` adds
exactly `k + 3` lines after the lines already in the buffer: the comment line, the line
`export interface <Name> {`, `k` property lines and the closing `}`; the `i`-th property line
is, behind its indentation, the line of the `i`-th non-ignored field in input order: its
effective name (the override name of its metadata when that is non-empty, else its source
name), `?` when the value has the pointer flag, `:`, the type and the final `;`.  Ignored
fields contribute no line. -/
theorem renderStruct_line_count (str : Struct) (mappings : TypeScriptMappings)
    (lines : List String) (indent : String) (tabs : Nat) :
    (renderStruct str mappings (code.fresh lines indent tabs)).1.lines.take lines.length = lines ∧
    (emittedLines str mappings lines indent tabs).length = str.specKeptFields.length + 3 ∧
    (emittedLines str mappings lines indent tabs)[0]? =
      some (code.pre indent tabs ++ ("// " ++ str.FullName)) ∧
    (emittedLines str mappings lines indent tabs)[1]? =
      some (code.pre indent tabs ++ ("export interface " ++ str.Name ++ " \x7b")) ∧
    (emittedLines str mappings lines indent tabs)[str.specKeptFields.length + 2]? =
      some (code.pre indent tabs ++ "\x7d") ∧
    (∀ i : Fin str.specKeptFields.length,
      (emittedLines str mappings lines indent tabs)[i.val + 2]? =
        some (code.pre indent (tabs + 1) ++
          (specEffectiveName (str.specKeptFields.get i) ++
            (if (str.specKeptFields.get i).Value.IsPtr = true then "?" else "") ++ ":" ++
            (str.specKeptFields.get i).Value.tsType mappings ++ ";"))) ∧
    emittedLines str mappings lines indent tabs =
      [code.pre indent tabs ++ ("// " ++ str.FullName),
        code.pre indent tabs ++ ("export interface " ++ str.Name ++ " \x7b")] ++
      str.specKeptFields.map
        (fun f => code.pre indent (tabs + 1) ++
          (specEffectiveName f ++ (if f.Value.IsPtr = true then "?" else "") ++ ":" ++
            f.Value.tsType mappings ++ ";")) ++
      [code.pre indent tabs ++ "\x7d"] := by
  have hname : ∀ f : Field, specEffectiveName f = f.tsName := specEffectiveName_eq
  rw [specKeptFields_eq]
  refine ⟨?_, ?_, ?_, ?_, ?_, ?_, ?_⟩
  · rw [renderStruct_fresh]; simp [code.fresh]
  · rw [emittedLines_eq]; simp
  · rw [emittedLines_eq]; simp
  · rw [emittedLines_eq]; simp
  · rw [emittedLines_eq]
    simp [List.getElem?_append_right, List.getElem?_cons]
  · intro i
    rw [emittedLines_eq]
    have hi := i.isLt
    simp [List.getElem?_append_right, List.getElem?_cons, List.getElem?_append_left, hi,
      specPropertyLine, String.append_assoc, hname]
  · rw [emittedLines_eq]
    simp [specPropertyLine, String.append_assoc, hname]

/-! ### `tsType` -/

theorem tsType_array (mappings : TypeScriptMappings) (scalarType : ScalarType)
    (structType : Option StructType) (inner : Value) :
    Value.tsType mappings (.mk scalarType structType (some inner) false) =
      Value.tsType mappings inner ++ "[]" := by
  simp [Value.tsType]

theorem tsType_scalar (mappings : TypeScriptMappings) (s : ScalarType) (hs : s ≠ "")
    (hb : s ≠ ScalarTypeBool) :
    Value.tsType mappings (.mk s none none false) = s := by
  have hlen := length_pos_of_ne_empty s hs
  simp [Value.tsType, hlen, hb]

/-- C4: for a pointer-flagged value that is a struct reference whose declaring module is
non-empty and is a key of the module mapping, `tsType` is the mapped target module name, a dot
and the struct name. -/
theorem tsType_ptr_struct_mapped (mappings : TypeScriptMappings) (scalarType : ScalarType)
    (st : StructType) (array : Option Value) (mapping : TypeScriptMapping)
    (hpkg : st.Package ≠ "") (hkey : mappings.lookup st.Package = some mapping) :
    Value.tsType mappings (.mk scalarType (some st) array true) =
      mapping.TypeScriptModule ++ "." ++ st.Name := by
  have hlen := length_pos_of_ne_empty st.Package hpkg
  cases array <;> simp [Value.tsType, hlen, hkey, String.append_assoc]

theorem tsType_ptr_struct_mapped_witness :
    Value.tsType exampleMappings (.mk "" (some { Name := "Struct", Package := "pkg/a" }) none true)
      = "Mod" ++ "." ++ "Struct" :=
  tsType_ptr_struct_mapped exampleMappings "" { Name := "Struct", Package := "pkg/a" } none
    { GoPackage := "pkg/a", TypeScriptModule := "Mod" } (by decide) (by decide)

/-- C5: at the pointer-flagged reference to the struct `Foo` of the module `pkg/x`, with an
empty module mapping, `tsType` is `.Foo`: the struct name behind a leading dot, not the bare
name `Foo`. -/
theorem tsType_ptr_struct_unmapped_leading_dot :
    Value.tsType [] (.mk "" (some { Name := "Foo", Package := "pkg/x" }) none true) = ".Foo" ∧
    Value.tsType [] (.mk "" (some { Name := "Foo", Package := "pkg/x" }) none true) ≠ "Foo" := by
  decide

/-- C6: for every module mapping, `tsType` of the pointer-flagged scalar `bool` is `bool`, while
`tsType` of the non-pointer scalar `bool` is `boolean`: the two differ. -/
theorem tsType_ptr_bool_differs (mappings : TypeScriptMappings) :
    Value.tsType mappings (.mk ScalarTypeBool none none true) = "bool" ∧
    Value.tsType mappings (.mk ScalarTypeBool none none false) = "boolean" ∧
    Value.tsType mappings (.mk ScalarTypeBool none none true) ≠
      Value.tsType mappings (.mk ScalarTypeBool none none false) := by
  have h1 : Value.tsType mappings (.mk ScalarTypeBool none none true) = "bool" := by
    simp [Value.tsType, ScalarTypeBool]
  have h2 : Value.tsType mappings (.mk ScalarTypeBool none none false) = "boolean" := by
    simp [Value.tsType, ScalarTypeBool]
    decide
  refine ⟨h1, h2, ?_⟩
  rw [h1, h2]
  decide

/-- C7: at the pointer-flagged array of the scalar `number`, `tsType` is the empty text, while
`tsType` of the inner value followed by `[]` is `number[]`. -/
theorem tsType_ptr_array_empty :
    Value.tsType [] (.mk "" none (some (.mk "number" none none false)) true) = "" ∧
    Value.tsType [] (.mk "number" none none false) ++ "[]" = "number[]" ∧
    Value.tsType [] (.mk "" none (some (.mk "number" none none false)) true) ≠
      Value.tsType [] (.mk "number" none none false) ++ "[]" := by
  decide

/-- C8: for every `n` and every scalar name `s` (in particular every non-empty one), the
non-pointer scalar `s` wrapped in `n` nested non-pointer arrays renders as the rendering of the
scalar followed by `n` copies of `[]`; the array of arrays of `number` renders as
`number[][]`. -/
theorem tsType_nestedArray (mappings : TypeScriptMappings) (n : Nat) (s : ScalarType) :
    Value.tsType mappings (nestedArray n (.mk s none none false)) =
      Value.tsType mappings (.mk s none none false) ++ brackets n ∧
    Value.tsType mappings (arrayOf (arrayOf (.mk "number" none none false))) = "number[][]" := by
  constructor
  · induction n with
    | zero => simp [nestedArray, brackets]
    | succ k ih =>
      rw [nestedArray, arrayOf, tsType_array, ih, brackets, String.append_assoc]
  · have hs : Value.tsType mappings (.mk "number" none none false) = "number" :=
      tsType_scalar mappings "number" (by decide) (by decide)
    rw [arrayOf, arrayOf, tsType_array, tsType_array, hs]
    decide

/-! ### Go maps -/

theorem GoMap.lookup_eq_none_iff {V : Type} (m : GoMap V) (k : String) :
    m.lookup k = none ↔ k ∉ m.keys := by
  induction m with
  | nil => simp [GoMap.keys]
  | cons e rest ih =>
    rcases e with ⟨k', v'⟩
    by_cases h : k = k'
    · subst h; simp [GoMap.keys, List.lookup]
    · have hb : (k == k') = false := by simpa using h
      simp only [GoMap.keys] at ih
      simp [GoMap.keys, List.lookup, hb, ih, h]

theorem GoMap.mem_keys_set {V : Type} (m : GoMap V) (k : String) (v : V) (k' : String) :
    k' ∈ (m.set k v).keys ↔ k' = k ∨ k' ∈ m.keys := by
  induction m with
  | nil => simp [GoMap.set, GoMap.keys]
  | cons e rest ih =>
    rcases e with ⟨k0, v0⟩
    by_cases h : k0 = k
    · subst h; simp [GoMap.set, GoMap.keys]
    · simp only [GoMap.keys] at ih
      simp [GoMap.set, GoMap.keys, h, ih]
      tauto

theorem GoMap.mem_keys_set_of_mem {V : Type} (m : GoMap V) (k : String) (v : V) (k' : String)
    (hk : k ∈ m.keys) : k' ∈ (m.set k v).keys ↔ k' ∈ m.keys := by
  rw [GoMap.mem_keys_set]
  constructor
  · rintro (h | h)
    · subst h; exact hk
    · exact h
  · exact fun h => Or.inr h

theorem mem_keys_foldl_initCodeMap (mappings : TypeScriptMappings) :
    ∀ (acc : GoMap (GoMap code)) (k : String),
      k ∈ (mappings.foldl (fun codeMap entry => codeMap.set entry.2.GoPackage []) acc).keys ↔
        k ∈ acc.keys ∨ hasMapping mappings k := by
  induction mappings with
  | nil => intro acc k; simp [hasMapping]
  | cons e rest ih =>
    intro acc k
    rw [List.foldl_cons, ih, GoMap.mem_keys_set]
    simp only [hasMapping, List.mem_cons, exists_eq_or_imp] at *
    constructor
    · rintro ((h | h) | h)
      · exact Or.inr (Or.inl h.symm)
      · exact Or.inl h
      · exact Or.inr (Or.inr h)
    · rintro (h | h | h)
      · exact Or.inl (Or.inr h)
      · exact Or.inl (Or.inl h.symm)
      · exact Or.inr h

theorem mem_keys_initCodeMap (mappings : TypeScriptMappings) (k : String) :
    k ∈ (initCodeMap mappings).keys ↔ hasMapping mappings k := by
  unfold initCodeMap
  rw [mem_keys_foldl_initCodeMap]
  simp [GoMap.keys]

/-! ### The loop over the structures -/

theorem renderStructsLoop_ok (mappings : TypeScriptMappings)
    (structs : List (String × Option Struct)) :
    ∀ codeMap : GoMap (GoMap code),
      (∀ entry ∈ structs, ∃ s, entry.2 = some s ∧ s.Package ∈ codeMap.keys) →
      ∃ result, renderStructsLoop mappings structs codeMap = .ok result := by
  induction structs with
  | nil => intro codeMap _; exact ⟨codeMap, rfl⟩
  | cons e rest ih =>
    intro codeMap hall
    rcases e with ⟨name, str⟩
    obtain ⟨s, hs, hk⟩ := hall (name, str) (List.mem_cons_self _ _)
    simp only at hs
    subst hs
    cases hl : codeMap.lookup s.Package with
    | none => exact absurd hk ((GoMap.lookup_eq_none_iff codeMap s.Package).mp hl)
    | some packageCodeMap =>
      have hrest : ∀ entry ∈ rest, ∃ s', entry.2 = some s' ∧
          s'.Package ∈ (codeMap.set s.Package
            (packageCodeMap.set s.Name
              (renderStruct s mappings ((newCode "\t").ind 1)).1)).keys := by
        intro entry hmem
        obtain ⟨s', hs', hk'⟩ := hall entry (List.mem_cons_of_mem _ hmem)
        exact ⟨s', hs', (GoMap.mem_keys_set_of_mem codeMap s.Package _ s'.Package hk).mpr hk'⟩
      obtain ⟨result, hres⟩ := ih _ hrest
      refine ⟨result, ?_⟩
      simp only [renderStructsLoop, hl]
      exact hres

theorem renderStructsLoop_error (mappings : TypeScriptMappings)
    (structs : List (String × Option Struct)) :
    ∀ (codeMap : GoMap (GoMap code)) (err : String),
      renderStructsLoop mappings structs codeMap = .error err →
      (∃ name, (name, none) ∈ structs ∧ err = "could not resolve: " ++ name) ∨
      (∃ name s, (name, some s) ∈ structs ∧ s.Package ∉ codeMap.keys ∧
        err = missingMappingError s.Package) := by
  induction structs with
  | nil => intro codeMap err h; simp [renderStructsLoop] at h
  | cons e rest ih =>
    intro codeMap err h
    rcases e with ⟨name, str⟩
    cases str with
    | none =>
      simp only [renderStructsLoop, Except.error.injEq] at h
      exact Or.inl ⟨name, List.mem_cons_self _ _, h.symm⟩
    | some s =>
      cases hl : codeMap.lookup s.Package with
      | none =>
        simp only [renderStructsLoop, hl, Except.error.injEq] at h
        exact Or.inr ⟨name, s, List.mem_cons_self _ _,
          (GoMap.lookup_eq_none_iff codeMap s.Package).mp hl, h.symm⟩
      | some packageCodeMap =>
        have hk : s.Package ∈ codeMap.keys := by
          by_contra hne
          rw [(GoMap.lookup_eq_none_iff codeMap s.Package).mpr hne] at hl
          exact absurd hl (by simp)
        simp only [renderStructsLoop, hl] at h
        rcases ih _ err h with ⟨n, hn, he⟩ | ⟨n, s', hn, hk', he⟩
        · exact Or.inl ⟨n, List.mem_cons_of_mem _ hn, he⟩
        · exact Or.inr ⟨n, s', List.mem_cons_of_mem _ hn,
            fun hmem => hk' ((GoMap.mem_keys_set_of_mem codeMap s.Package _ s'.Package hk).mpr
              hmem), he⟩

theorem renderStructsLoop_ok_inv (mappings : TypeScriptMappings)
    (structs : List (String × Option Struct)) :
    ∀ (codeMap result : GoMap (GoMap code)),
      renderStructsLoop mappings structs codeMap = .ok result →
      ∀ entry ∈ structs, ∃ s, entry.2 = some s ∧ s.Package ∈ codeMap.keys := by
  induction structs with
  | nil => intro codeMap result _ entry hmem; simp at hmem
  | cons e rest ih =>
    intro codeMap result h entry hmem
    rcases e with ⟨name, str⟩
    cases str with
    | none => simp [renderStructsLoop] at h
    | some s =>
      cases hl : codeMap.lookup s.Package with
      | none => simp [renderStructsLoop, hl] at h
      | some packageCodeMap =>
        have hk : s.Package ∈ codeMap.keys := by
          by_contra hne
          rw [(GoMap.lookup_eq_none_iff codeMap s.Package).mpr hne] at hl
          exact absurd hl (by simp)
        simp only [renderStructsLoop, hl] at h
        rcases List.mem_cons.mp hmem with heq | hin
        · subst heq; exact ⟨s, rfl, hk⟩
        · obtain ⟨s', hs', hk'⟩ := ih _ result h entry hin
          exact ⟨s', hs', (GoMap.mem_keys_set_of_mem codeMap s.Package _ s'.Package hk).mp hk'⟩

theorem renderStructsLoop_first_unmapped (mappings : TypeScriptMappings)
    (structs : List (String × Option Struct)) :
    ∀ codeMap : GoMap (GoMap code),
      (∀ entry ∈ structs, entry.2 ≠ none) →
      (∃ entry ∈ structs, ∃ s, entry.2 = some s ∧ s.Package ∉ codeMap.keys) →
      ∃ before name s after, structs = before ++ (name, some s) :: after ∧
        (∀ entry ∈ before, ∃ s', entry.2 = some s' ∧ s'.Package ∈ codeMap.keys) ∧
        s.Package ∉ codeMap.keys ∧
        renderStructsLoop mappings structs codeMap = .error (missingMappingError s.Package) := by
  induction structs with
  | nil => intro codeMap _ h; simp at h
  | cons e rest ih =>
    intro codeMap hnil hmiss
    rcases e with ⟨name, str⟩
    cases str with
    | none => exact absurd rfl (hnil (name, none) (List.mem_cons_self _ _))
    | some s =>
      cases hl : codeMap.lookup s.Package with
      | none =>
        refine ⟨[], name, s, rest, rfl, by simp,
          (GoMap.lookup_eq_none_iff codeMap s.Package).mp hl, ?_⟩
        simp only [renderStructsLoop, hl]
      | some packageCodeMap =>
        have hk : s.Package ∈ codeMap.keys := by
          by_contra hne
          rw [(GoMap.lookup_eq_none_iff codeMap s.Package).mpr hne] at hl
          exact absurd hl (by simp)
        have hkeys : ∀ k', k' ∈ (codeMap.set s.Package (packageCodeMap.set s.Name
            (renderStruct s mappings ((newCode "\t").ind 1)).1)).keys ↔ k' ∈ codeMap.keys :=
          fun k' => GoMap.mem_keys_set_of_mem codeMap s.Package _ k' hk
        have hmiss' : ∃ entry ∈ rest, ∃ s', entry.2 = some s' ∧
            s'.Package ∉ (codeMap.set s.Package (packageCodeMap.set s.Name
              (renderStruct s mappings ((newCode "\t").ind 1)).1)).keys := by
          obtain ⟨entry, hmem, s', hs', hno⟩ := hmiss
          rcases List.mem_cons.mp hmem with heq | hin
          · subst heq
            simp only [Option.some.injEq] at hs'
            subst hs'
            exact absurd hk hno
          · exact ⟨entry, hin, s', hs', fun h => hno ((hkeys _).mp h)⟩
        obtain ⟨before, n, s0, after, hsplit, hbefore, hno, hres⟩ :=
          ih _ (fun entry hmem => hnil entry (List.mem_cons_of_mem _ hmem)) hmiss'
        refine ⟨(name, some s) :: before, n, s0, after, by simp [hsplit], ?_,
          fun h => hno ((hkeys _).mpr h), ?_⟩
        · intro entry hmem
          rcases List.mem_cons.mp hmem with heq | hin
          · subst heq; exact ⟨s, rfl, hk⟩
          · obtain ⟨s', hs', hk'⟩ := hbefore entry hin
            exact ⟨s', hs', (hkeys _).mp hk'⟩
        · simp only [renderStructsLoop, hl]
          exact hres

/-! ### `RenderStructsToPackages` -/

theorem hasMapping_iff_mem_keys (mappings : TypeScriptMappings)
    (hkeyed : ∀ entry ∈ mappings, entry.2.GoPackage = entry.1) (goPackage : String) :
    hasMapping mappings goPackage ↔ goPackage ∈ mappings.keys := by
  simp only [hasMapping, GoMap.keys, List.mem_map]
  constructor
  · rintro ⟨entry, hmem, h⟩
    exact ⟨entry, hmem, by rw [← hkeyed entry hmem, h]⟩
  · rintro ⟨entry, hmem, h⟩
    exact ⟨entry, hmem, by rw [hkeyed entry hmem, h]⟩

/-- C9 (as stated, refuted): for the structure set holding the structures `Foo` of the Go
package `pkg/x` and `Bar` of the Go package `pkg/y` and an empty module mapping, every entry is
non-nil and neither package has a mapping entry; the returned error is the missing-mapping
message for `pkg/x`, which contains neither the structure name `Foo` nor the structure name
`Bar` nor the package `pkg/y`. -/
theorem missing_mapping_error_omits_struct_name :
    (∀ entry ∈ unmappedStructs, entry.2 ≠ none) ∧
    ¬ hasMapping [] "pkg/x" ∧ ¬ hasMapping [] "pkg/y" ∧
    (RenderStructsToPackages unmappedStructs [] [] []).1 = some (missingMappingError "pkg/x") ∧
    ¬ ("Foo".toList <:+: (missingMappingError "pkg/x").toList) ∧
    ¬ ("Bar".toList <:+: (missingMappingError "pkg/x").toList) ∧
    ¬ ("pkg/y".toList <:+: (missingMappingError "pkg/x").toList) := by
  refine ⟨?_, ?_, ?_, ?_, ?_, ?_, ?_⟩
  · simp [unmappedStructs]
  · simp [hasMapping]
  · simp [hasMapping]
  · rfl
  · set_option maxRecDepth 100000 in decide
  · set_option maxRecDepth 100000 in decide
  · set_option maxRecDepth 100000 in decide

/-- C9 (amended): when every structure entry is non-nil and some structure's Go package has no
module-mapping entry, `RenderStructsToPackages` returns the error `missing code mapping for go
package : <package> => you have to add a mapping ...` where `<package>` is the Go package of
the first structure visited whose package has no mapping entry: the message names that package
and tells to add a mapping. -/
theorem RenderStructsToPackages_missing_mapping (structs : GoMap (Option Struct))
    (mappings : TypeScriptMappings) (constants : GoMap (GoMap BasicLit))
    (mappedTypeScript : GoMap (GoMap code))
    (hnil : ∀ entry ∈ structs, entry.2 ≠ none)
    (hmiss : ∃ entry ∈ structs, ∃ s, entry.2 = some s ∧ ¬ hasMapping mappings s.Package) :
    ∃ before name s after, structs = before ++ (name, some s) :: after ∧
      (∀ entry ∈ before, ∃ s', entry.2 = some s' ∧ hasMapping mappings s'.Package) ∧
      ¬ hasMapping mappings s.Package ∧
      (RenderStructsToPackages structs mappings constants mappedTypeScript).1 =
        some ("missing code mapping for go package : " ++ s.Package ++
          " => you have to add a mapping from this go package to a TypeScript module in your build-config.yml in the mappings section") := by
  have hmiss' : ∃ entry ∈ structs, ∃ s, entry.2 = some s ∧
      s.Package ∉ (initCodeMap mappings).keys := by
    obtain ⟨entry, hmem, s, hs, hno⟩ := hmiss
    exact ⟨entry, hmem, s, hs, fun h => hno ((mem_keys_initCodeMap mappings s.Package).mp h)⟩
  obtain ⟨before, name, s, after, hsplit, hbefore, hno, hres⟩ :=
    renderStructsLoop_first_unmapped mappings structs _ hnil hmiss'
  refine ⟨before, name, s, after, hsplit, ?_,
    fun h => hno ((mem_keys_initCodeMap mappings s.Package).mpr h), ?_⟩
  · intro entry hmem
    obtain ⟨s', hs', hk⟩ := hbefore entry hmem
    exact ⟨s', hs', (mem_keys_initCodeMap mappings s'.Package).mp hk⟩
  · simp only [RenderStructsToPackages, hres, missingMappingError]

theorem RenderStructsToPackages_missing_mapping_witness :
    ∃ before name s after, unmappedStructs = before ++ (name, some s) :: after ∧
      (∀ entry ∈ before, ∃ s', entry.2 = some s' ∧ hasMapping [] s'.Package) ∧
      ¬ hasMapping [] s.Package ∧
      (RenderStructsToPackages unmappedStructs [] [] []).1 =
        some ("missing code mapping for go package : " ++ s.Package ++
          " => you have to add a mapping from this go package to a TypeScript module in your build-config.yml in the mappings section") :=
  RenderStructsToPackages_missing_mapping unmappedStructs [] [] []
    (by simp [unmappedStructs])
    ⟨("Foo", some { Package := "pkg/x", Name := "Foo", Fields := [] }),
      by simp [unmappedStructs], { Package := "pkg/x", Name := "Foo", Fields := [] }, rfl,
      by simp [hasMapping]⟩

/-- C10: `RenderStructsToPackages` returns an error if and only if the structure set contains a
nil entry or a structure whose Go package has no module-mapping entry, whatever the fields,
the constants and the accumulator are. -/
theorem RenderStructsToPackages_error_iff (structs : GoMap (Option Struct))
    (mappings : TypeScriptMappings) (constants : GoMap (GoMap BasicLit))
    (mappedTypeScript : GoMap (GoMap code)) :
    (RenderStructsToPackages structs mappings constants mappedTypeScript).1 ≠ none ↔
      ∃ entry ∈ structs,
        entry.2 = none ∨ ∃ s, entry.2 = some s ∧ ¬ hasMapping mappings s.Package := by
  cases hloop : renderStructsLoop mappings structs (initCodeMap mappings) with
  | ok result =>
    have hgood := renderStructsLoop_ok_inv mappings structs _ result hloop
    simp only [RenderStructsToPackages, hloop, ne_eq, not_true_eq_false, false_iff]
    rintro ⟨entry, hmem, hbad⟩
    obtain ⟨s, hs, hk⟩ := hgood entry hmem
    rcases hbad with hnone | ⟨s', hs', hno⟩
    · rw [hs] at hnone; cases hnone
    · rw [hs] at hs'
      cases hs'
      exact hno ((mem_keys_initCodeMap mappings s.Package).mp hk)
  | error err =>
    simp only [RenderStructsToPackages, hloop, ne_eq, reduceCtorEq, not_false_eq_true, true_iff]
    rcases renderStructsLoop_error mappings structs _ err hloop with
      ⟨name, hn, _⟩ | ⟨name, s, hn, hk, _⟩
    · exact ⟨(name, none), hn, Or.inl rfl⟩
    · exact ⟨(name, some s), hn, Or.inr ⟨s, rfl,
        fun hm => hk ((mem_keys_initCodeMap mappings s.Package).mpr hm)⟩⟩

/-- C11: whenever `RenderStructsToPackages` returns an error, the accumulator
`mappedTypeScript` after the call is the accumulator before the call: no package and no unit
is added or replaced. -/
theorem RenderStructsToPackages_error_keeps_accumulator (structs : GoMap (Option Struct))
    (mappings : TypeScriptMappings) (constants : GoMap (GoMap BasicLit))
    (mappedTypeScript : GoMap (GoMap code))
    (herr : (RenderStructsToPackages structs mappings constants mappedTypeScript).1 ≠ none) :
    (RenderStructsToPackages structs mappings constants mappedTypeScript).2 =
      mappedTypeScript := by
  unfold RenderStructsToPackages at herr ⊢
  cases hloop : renderStructsLoop mappings structs (initCodeMap mappings) with
  | ok result => simp [hloop] at herr
  | error err => rfl

theorem RenderStructsToPackages_error_keeps_accumulator_witness :
    (RenderStructsToPackages unmappedStructs [] exampleConstants exampleAccumulator).2 =
      exampleAccumulator :=
  RenderStructsToPackages_error_keeps_accumulator unmappedStructs [] exampleConstants
    exampleAccumulator (by decide)

theorem renderStructsLoop_nil_entry (mappings : TypeScriptMappings)
    (before : List (String × Option Struct)) (name : String)
    (after : List (String × Option Struct)) :
    ∀ codeMap : GoMap (GoMap code),
      (∀ entry ∈ before, ∃ s, entry.2 = some s ∧ s.Package ∈ codeMap.keys) →
      renderStructsLoop mappings (before ++ (name, none) :: after) codeMap =
        .error ("could not resolve: " ++ name) := by
  induction before with
  | nil => intro codeMap _; rfl
  | cons e rest ih =>
    intro codeMap hall
    rcases e with ⟨n, str⟩
    obtain ⟨s, hs, hk⟩ := hall (n, str) (List.mem_cons_self _ _)
    simp only at hs
    subst hs
    cases hl : codeMap.lookup s.Package with
    | none => exact absurd hk ((GoMap.lookup_eq_none_iff codeMap s.Package).mp hl)
    | some packageCodeMap =>
      simp only [List.cons_append, renderStructsLoop, hl]
      apply ih
      intro entry hmem
      obtain ⟨s', hs', hk'⟩ := hall entry (List.mem_cons_of_mem _ hmem)
      exact ⟨s', hs', (GoMap.mem_keys_set_of_mem codeMap s.Package _ s'.Package hk).mpr hk'⟩

/-- C12: when the loop over the structure set reaches a nil entry under the key `name` (every
entry visited before it is non-nil with a mapped Go package), `RenderStructsToPackages` returns
the error `could not resolve: ` followed by `name`, whatever the module mapping is: the nil
test comes before the mapping lookup, so the entry never gives the missing-mapping error. -/
theorem RenderStructsToPackages_nil_entry (before : GoMap (Option Struct)) (name : String)
    (after : GoMap (Option Struct)) (mappings : TypeScriptMappings)
    (constants : GoMap (GoMap BasicLit)) (mappedTypeScript : GoMap (GoMap code))
    (hbefore : ∀ entry ∈ before, ∃ s, entry.2 = some s ∧ hasMapping mappings s.Package) :
    (RenderStructsToPackages (before ++ (name, none) :: after) mappings constants
      mappedTypeScript).1 = some ("could not resolve: " ++ name) := by
  have hloop := renderStructsLoop_nil_entry mappings before name after (initCodeMap mappings)
    (fun entry hmem => by
      obtain ⟨s, hs, hm⟩ := hbefore entry hmem
      exact ⟨s, hs, (mem_keys_initCodeMap mappings s.Package).mpr hm⟩)
  simp only [RenderStructsToPackages, hloop]

theorem RenderStructsToPackages_nil_entry_witness :
    (RenderStructsToPackages ([("Struct", some exampleStruct)] ++ ("Ghost", none) :: unmappedStructs)
      exampleMappings exampleConstants exampleAccumulator).1 =
        some ("could not resolve: " ++ "Ghost") :=
  RenderStructsToPackages_nil_entry [("Struct", some exampleStruct)] "Ghost" unmappedStructs
    exampleMappings exampleConstants exampleAccumulator
    (by
      intro entry hmem
      simp only [List.mem_singleton] at hmem
      subst hmem
      exact ⟨exampleStruct, rfl, by decide⟩)

/-! ### More on Go maps -/

theorem GoMap.lookup_set_self {V : Type} (m : GoMap V) (k : String) (v : V) :
    (m.set k v).lookup k = some v := by
  induction m with
  | nil => simp [GoMap.set, List.lookup]
  | cons e rest ih =>
    rcases e with ⟨k0, v0⟩
    by_cases h : k0 = k
    · simp [GoMap.set, h, List.lookup]
    · have hb : (k == k0) = false := by simpa using fun h' => h h'.symm
      simp [GoMap.set, h, List.lookup, hb, ih]

theorem GoMap.lookup_set_ne {V : Type} (m : GoMap V) (k : String) (v : V) (k' : String)
    (hne : k' ≠ k) : (m.set k v).lookup k' = m.lookup k' := by
  induction m with
  | nil =>
    have hb : (k' == k) = false := by simpa using hne
    simp [GoMap.set, List.lookup, hb]
  | cons e rest ih =>
    rcases e with ⟨k0, v0⟩
    by_cases h : k0 = k
    · subst h
      have hb : (k' == k0) = false := by simpa using hne
      simp [GoMap.set, List.lookup, hb]
    · by_cases h' : k' = k0
      · subst h'; simp [GoMap.set, h, List.lookup]
      · have hb : (k' == k0) = false := by simpa using h'
        simp [GoMap.set, h, List.lookup, hb, ih]

theorem GoMap.set_eq_self {V : Type} (m : GoMap V) (k : String) (v : V)
    (h : m.lookup k = some v) : m.set k v = m := by
  induction m with
  | nil => simp [List.lookup] at h
  | cons e rest ih =>
    rcases e with ⟨k0, v0⟩
    by_cases hk : k0 = k
    · subst hk
      simp [List.lookup] at h
      simp [GoMap.set, h]
    · have hb : (k == k0) = false := by simpa using fun h' => hk h'.symm
      simp only [List.lookup, hb] at h
      simp [GoMap.set, hk, ih h]

theorem GoMap.mem_of_lookup {V : Type} (m : GoMap V) (k : String) (v : V)
    (h : m.lookup k = some v) : (k, v) ∈ m := by
  induction m with
  | nil => simp [List.lookup] at h
  | cons e rest ih =>
    rcases e with ⟨k0, v0⟩
    by_cases hk : k = k0
    · subst hk
      simp [List.lookup] at h
      simp [h]
    · have hb : (k == k0) = false := by simpa using hk
      simp only [List.lookup, hb] at h
      exact List.mem_cons_of_mem _ (ih h)

theorem GoMap.lookup_of_mem {V : Type} (m : GoMap V) (hnodup : m.keys.Nodup) (k : String)
    (v : V) (h : (k, v) ∈ m) : m.lookup k = some v := by
  induction m with
  | nil => simp at h
  | cons e rest ih =>
    rcases e with ⟨k0, v0⟩
    simp only [GoMap.keys, List.map_cons, List.nodup_cons, List.mem_map, not_exists, not_and]
      at hnodup
    rcases List.mem_cons.mp h with heq | hin
    · cases heq; simp [List.lookup]
    · have hk : k ≠ k0 := fun hkk => hnodup.1 (k, v) hin (by simp [hkk])
      have hb : (k == k0) = false := by simpa using hk
      simp only [List.lookup, hb]
      exact ih hnodup.2 hin

theorem GoMap.mem_set {V : Type} (m : GoMap V) (k : String) (v : V) (e : String × V)
    (h : e ∈ m.set k v) : e = (k, v) ∨ e ∈ m := by
  induction m with
  | nil => simpa [GoMap.set] using h
  | cons e0 rest ih =>
    rcases e0 with ⟨k0, v0⟩
    by_cases hk : k0 = k
    · simp only [GoMap.set, hk, if_true, List.mem_cons] at h
      rcases h with h | h
      · exact Or.inl h
      · exact Or.inr (List.mem_cons_of_mem _ h)
    · simp only [GoMap.set, hk, if_false, List.mem_cons] at h
      rcases h with h | h
      · exact Or.inr (by simp [h])
      · rcases ih h with h' | h'
        · exact Or.inl h'
        · exact Or.inr (List.mem_cons_of_mem _ h')

theorem GoMap.nodup_keys_set {V : Type} (m : GoMap V) (k : String) (v : V)
    (hnodup : m.keys.Nodup) : (m.set k v).keys.Nodup := by
  induction m with
  | nil => simp [GoMap.set, GoMap.keys]
  | cons e rest ih =>
    rcases e with ⟨k0, v0⟩
    have hcons : k0 ∉ GoMap.keys rest ∧ (GoMap.keys rest).Nodup := by
      simpa [GoMap.keys] using hnodup
    by_cases hk : k0 = k
    · subst hk
      simpa [GoMap.set, GoMap.keys] using hnodup
    · have hmem : k0 ∉ (GoMap.set rest k v).keys := by
        rw [GoMap.mem_keys_set]
        rintro (h | h)
        · exact hk h
        · exact hcons.1 h
      have hrest := ih hcons.2
      simp only [GoMap.set, hk, if_false, GoMap.keys, List.map_cons, List.nodup_cons]
      exact ⟨hmem, hrest⟩

/-! ### Lookups of units in the accumulator -/

theorem lookupUnit_ensure (acc : GoMap (GoMap code)) (p p' u : String) :
    lookupUnit (ensureCodeInPackage acc p) p' u = lookupUnit acc p' u := by
  unfold ensureCodeInPackage
  cases h : acc.lookup p with
  | some inner => rfl
  | none =>
    by_cases hp : p' = p
    · subst hp; simp [lookupUnit, GoMap.lookup_set_self, h, List.lookup]
    · simp [lookupUnit, GoMap.lookup_set_ne _ _ _ _ hp]

theorem lookupUnit_setUnit_self (acc : GoMap (GoMap code)) (p u : String) (c : code) :
    lookupUnit (setUnit acc p u c) p u = some c := by
  simp [lookupUnit, setUnit, GoMap.lookup_set_self]

theorem lookupUnit_setUnit_ne (acc : GoMap (GoMap code)) (p u : String) (c : code)
    (p' u' : String) (hne : ¬ (p' = p ∧ u' = u)) :
    lookupUnit (setUnit acc p u c) p' u' = lookupUnit acc p' u' := by
  by_cases hp : p' = p
  · subst hp
    have hu : u' ≠ u := fun h => hne ⟨rfl, h⟩
    simp [lookupUnit, setUnit, GoMap.lookup_set_self, GoMap.lookup_set_ne _ _ _ _ hu]
  · simp [lookupUnit, setUnit, GoMap.lookup_set_ne _ _ _ _ hp]

theorem setUnit_ensure_eq_self (acc : GoMap (GoMap code)) (p u : String) (c : code)
    (h : lookupUnit acc p u = some c) : setUnit (ensureCodeInPackage acc p) p u c = acc := by
  unfold lookupUnit at h
  cases hl : acc.lookup p with
  | none => simp [hl, List.lookup] at h
  | some inner =>
    simp only [hl, Option.getD_some] at h
    simp only [ensureCodeInPackage, hl, setUnit, Option.getD_some]
    rw [GoMap.set_eq_self inner u c h]
    exact GoMap.set_eq_self acc p inner hl

/-! ### The constants pseudo-unit -/

theorem code.l_fresh (lines : List String) (indent : String) (tabs : Nat) (s : String) :
    (code.fresh lines indent tabs).l s =
      code.fresh (lines ++ [code.pre indent tabs ++ s]) indent tabs := by
  simp [code.fresh, code.l, code.app, code.nl]

theorem code.ind_fresh_succ (lines : List String) (indent : String) (tabs : Nat) :
    (code.fresh lines indent tabs).ind 1 = code.fresh lines indent (tabs + 1) := by
  simp [code.fresh, code.ind]

theorem code.ind_fresh_pred (lines : List String) (indent : String) (tabs : Nat) :
    (code.fresh lines indent (tabs + 1)).ind (-1) = code.fresh lines indent tabs := by
  simp [code.fresh, code.ind]

theorem foldl_constants_fresh (packageConstants : GoMap BasicLit) (names : List String) :
    ∀ (lines : List String) (indent : String) (tabs : Nat),
      (∀ n ∈ names, n ∈ packageConstants.keys) →
      names.foldl
        (fun constCode constName =>
          match packageConstants.lookup constName with
          | some basicLit => constCode.l (constName ++ " : " ++ basicLit.Value ++ ",")
          | none => constCode)
        (code.fresh lines indent tabs) =
      code.fresh
        (lines ++ names.map
          (fun n => code.pre indent tabs ++ specConstantLine (constantEntry packageConstants n)))
        indent tabs := by
  induction names with
  | nil => intro lines indent tabs _; simp
  | cons n rest ih =>
    intro lines indent tabs hall
    have hn : n ∈ packageConstants.keys := hall n (List.mem_cons_self _ _)
    cases hl : packageConstants.lookup n with
    | none => exact absurd hn ((GoMap.lookup_eq_none_iff packageConstants n).mp hl)
    | some lit =>
      simp only [List.foldl_cons, hl, code.l_fresh]
      rw [ih _ _ _ (fun m hm => hall m (List.mem_cons_of_mem _ hm))]
      simp [specConstantLine, constantEntry, hl, String.append_assoc]

theorem renderConstants_eq (packageName : String) (packageConstants : GoMap BasicLit) :
    renderConstants packageName packageConstants =
      code.fresh
        ([code.pre "\t" 1 ++ ("// constants from " ++ packageName),
            code.pre "\t" 1 ++ "export const GoConst = \x7b"] ++
          (packageConstants.keys.insertionSort (fun a b => a ≤ b)).map
            (fun n => code.pre "\t" 2 ++ specConstantLine (constantEntry packageConstants n)) ++
          [code.pre "\t" 1 ++ "\x7d"])
        "\t" 1 := by
  have h0 : newCode "\t" = code.fresh [] "\t" 0 := rfl
  have hmem : ∀ n ∈ packageConstants.keys.insertionSort (fun a b => a ≤ b),
      n ∈ packageConstants.keys :=
    fun n hn => (List.perm_insertionSort _ _).subset hn
  unfold renderConstants
  simp only [h0, code.ind_fresh_succ, code.l_fresh]
  have hfold := foldl_constants_fresh packageConstants
    (packageConstants.keys.insertionSort (fun a b => a ≤ b))
    ([] ++ [code.pre "\t" (0 + 1) ++ ("// constants from " ++ packageName)] ++
      [code.pre "\t" (0 + 1) ++ "export const GoConst = \x7b"]) "\t" (0 + 1 + 1) hmem
  simp only [GoMap.keys] at hfold ⊢
  rw [hfold, code.ind_fresh_pred, code.l_fresh]
  simp

theorem constantEntry_of_mem (packageConstants : GoMap BasicLit)
    (hnodup : packageConstants.keys.Nodup) (entry : String × BasicLit)
    (hmem : entry ∈ packageConstants) : constantEntry packageConstants entry.1 = entry := by
  rcases entry with ⟨n, lit⟩
  simp [constantEntry, GoMap.lookup_of_mem packageConstants hnodup n lit hmem]

theorem GoMap.lookup_perm {V : Type} (m m' : GoMap V) (hperm : m'.Perm m)
    (hnodup : m.keys.Nodup) (k : String) : m'.lookup k = m.lookup k := by
  have hnodup' : m'.keys.Nodup := (hperm.map _).nodup_iff.mpr hnodup
  cases h : m.lookup k with
  | some v =>
    exact GoMap.lookup_of_mem m' hnodup' k v (hperm.symm.subset (GoMap.mem_of_lookup m k v h))
  | none =>
    cases h' : m'.lookup k with
    | none => rfl
    | some v =>
      have := GoMap.lookup_of_mem m hnodup k v (hperm.subset (GoMap.mem_of_lookup m' k v h'))
      rw [h] at this
      cases this

theorem renderConstants_perm (packageName : String) (packageConstants other : GoMap BasicLit)
    (hnodup : packageConstants.keys.Nodup) (hperm : other.Perm packageConstants) :
    renderConstants packageName other = renderConstants packageName packageConstants := by
  have hkeys : (other.keys.insertionSort (fun a b => a ≤ b)) =
      packageConstants.keys.insertionSort (fun a b => a ≤ b) := by
    apply List.eq_of_perm_of_sorted (r := fun a b : String => a ≤ b)
    · exact ((List.perm_insertionSort _ _).trans (hperm.map _)).trans
        (List.perm_insertionSort _ _).symm
    · exact List.sorted_insertionSort _ _
    · exact List.sorted_insertionSort _ _
  have hentry : ∀ n, constantEntry other n = constantEntry packageConstants n := by
    intro n
    simp [constantEntry, GoMap.lookup_perm packageConstants other hperm hnodup n]
  rw [renderConstants_eq, renderConstants_eq, hkeys]
  simp [hentry]

/-! ### The loop over the constants -/

theorem ensureCodeInPackage_eq_self (acc : GoMap (GoMap code)) (p u : String) (c : code)
    (h : lookupUnit acc p u = some c) : ensureCodeInPackage acc p = acc := by
  unfold lookupUnit at h
  cases hl : acc.lookup p with
  | none => simp [hl, List.lookup] at h
  | some inner => simp [ensureCodeInPackage, hl]

theorem renderConstantsStep_empty (acc : GoMap (GoMap code)) (entry : String × GoMap BasicLit)
    (hempty : entry.2 = []) : renderConstantsStep acc entry = acc := by
  simp [renderConstantsStep, hempty]

theorem renderConstantsStep_done (acc : GoMap (GoMap code)) (entry : String × GoMap BasicLit)
    (c : code) (hdone : lookupUnit acc entry.1 goConstPseudoPackage = some c) :
    renderConstantsStep acc entry = acc := by
  have hens := ensureCodeInPackage_eq_self acc entry.1 goConstPseudoPackage c hdone
  have hdone' := hdone
  unfold lookupUnit at hdone'
  unfold renderConstantsStep
  by_cases hlen : entry.2.length > 0
  · simp only [hlen, if_true, hens, hdone']
  · simp only [hlen, if_false]

theorem renderConstantsStep_emits (acc : GoMap (GoMap code)) (entry : String × GoMap BasicLit)
    (hne : entry.2 ≠ []) (hnew : lookupUnit acc entry.1 goConstPseudoPackage = none) :
    renderConstantsStep acc entry =
      setUnit (ensureCodeInPackage acc entry.1) entry.1 goConstPseudoPackage
        (renderConstants entry.1 entry.2) := by
  have hlen : entry.2.length > 0 := List.length_pos.mpr hne
  have hnew' : lookupUnit (ensureCodeInPackage acc entry.1) entry.1 goConstPseudoPackage = none := by
    rw [lookupUnit_ensure]; exact hnew
  unfold lookupUnit at hnew'
  unfold renderConstantsStep
  simp only [hlen, if_true, hnew']

theorem lookupUnit_renderConstantsStep_other (acc : GoMap (GoMap code))
    (entry : String × GoMap BasicLit) (p u : String)
    (hother : ¬ (p = entry.1 ∧ u = goConstPseudoPackage)) :
    lookupUnit (renderConstantsStep acc entry) p u = lookupUnit acc p u := by
  by_cases hne : entry.2 = []
  · rw [renderConstantsStep_empty acc entry hne]
  · cases hdone : lookupUnit acc entry.1 goConstPseudoPackage with
    | some c => rw [renderConstantsStep_done acc entry c hdone]
    | none =>
      rw [renderConstantsStep_emits acc entry hne hdone,
        lookupUnit_setUnit_ne _ _ _ _ _ _ hother, lookupUnit_ensure]

theorem lookupUnit_renderConstantsStep_some (acc : GoMap (GoMap code))
    (entry : String × GoMap BasicLit) (p u : String) (c : code)
    (hsome : lookupUnit acc p u = some c) :
    lookupUnit (renderConstantsStep acc entry) p u = some c := by
  by_cases hother : p = entry.1 ∧ u = goConstPseudoPackage
  · obtain ⟨hp, hu⟩ := hother
    subst hp hu
    rw [renderConstantsStep_done acc entry c hsome]
    exact hsome
  · rw [lookupUnit_renderConstantsStep_other acc entry p u hother]
    exact hsome

theorem lookupUnit_foldl_constants_some (constants : GoMap (GoMap BasicLit)) :
    ∀ (acc : GoMap (GoMap code)) (p u : String) (c : code),
      lookupUnit acc p u = some c →
      lookupUnit (constants.foldl renderConstantsStep acc) p u = some c := by
  induction constants with
  | nil => intro acc p u c h; exact h
  | cons e rest ih =>
    intro acc p u c h
    exact ih _ p u c (lookupUnit_renderConstantsStep_some acc e p u c h)

theorem lookupUnit_foldl_constants_other (constants : GoMap (GoMap BasicLit)) :
    ∀ (acc : GoMap (GoMap code)) (p u : String),
      (∀ entry ∈ constants, entry.2 ≠ [] → ¬ (p = entry.1 ∧ u = goConstPseudoPackage)) →
      lookupUnit (constants.foldl renderConstantsStep acc) p u = lookupUnit acc p u := by
  induction constants with
  | nil => intro acc p u _; rfl
  | cons e rest ih =>
    intro acc p u hall
    rw [List.foldl_cons, ih _ p u (fun entry hmem => hall entry (List.mem_cons_of_mem _ hmem))]
    by_cases hne : e.2 = []
    · rw [renderConstantsStep_empty acc e hne]
    · exact lookupUnit_renderConstantsStep_other acc e p u
        (hall e (List.mem_cons_self _ _) hne)

theorem lookupUnit_foldl_constants_isSome (constants : GoMap (GoMap BasicLit)) :
    ∀ (acc : GoMap (GoMap code)) (entry : String × GoMap BasicLit),
      entry ∈ constants → entry.2 ≠ [] →
      ∃ c, lookupUnit (constants.foldl renderConstantsStep acc) entry.1 goConstPseudoPackage =
        some c := by
  induction constants with
  | nil => intro acc entry hmem; simp at hmem
  | cons e rest ih =>
    intro acc entry hmem hne
    rcases List.mem_cons.mp hmem with heq | hin
    · subst heq
      cases hdone : lookupUnit acc entry.1 goConstPseudoPackage with
      | some c =>
        exact ⟨c, lookupUnit_foldl_constants_some rest _ _ _ c
          (lookupUnit_renderConstantsStep_some acc entry _ _ c hdone)⟩
      | none =>
        refine ⟨renderConstants entry.1 entry.2, lookupUnit_foldl_constants_some rest _ _ _ _ ?_⟩
        rw [renderConstantsStep_emits acc entry hne hdone]
        exact lookupUnit_setUnit_self _ _ _ _
    · exact ih _ entry hin hne

theorem lookupUnit_foldl_constants_emits (constants : GoMap (GoMap BasicLit)) :
    ∀ (acc : GoMap (GoMap code)) (p : String) (packageConstants : GoMap BasicLit),
      constants.keys.Nodup → (p, packageConstants) ∈ constants → packageConstants ≠ [] →
      lookupUnit acc p goConstPseudoPackage = none →
      lookupUnit (constants.foldl renderConstantsStep acc) p goConstPseudoPackage =
        some (renderConstants p packageConstants) := by
  induction constants with
  | nil => intro acc p pc _ hmem; simp at hmem
  | cons e rest ih =>
    intro acc p pc hnodup hmem hne hnew
    have hcons : e.1 ∉ GoMap.keys rest ∧ (GoMap.keys rest).Nodup := by
      simpa [GoMap.keys] using hnodup
    rcases List.mem_cons.mp hmem with heq | hin
    · subst heq
      rw [List.foldl_cons]
      apply lookupUnit_foldl_constants_some rest
      rw [renderConstantsStep_emits acc (p, pc) hne hnew]
      exact lookupUnit_setUnit_self _ _ _ _
    · have hp : p ≠ e.1 := by
        intro hpe
        apply hcons.1
        rw [← hpe]
        simp only [GoMap.keys, List.mem_map]
        exact ⟨(p, pc), hin, rfl⟩
      rw [List.foldl_cons]
      apply ih _ p pc hcons.2 hin hne
      rw [lookupUnit_renderConstantsStep_other acc e p _ (fun h => hp h.1)]
      exact hnew

theorem foldl_constants_eq_self (constants : GoMap (GoMap BasicLit)) :
    ∀ acc : GoMap (GoMap code),
      (∀ entry ∈ constants, entry.2 ≠ [] →
        ∃ c, lookupUnit acc entry.1 goConstPseudoPackage = some c) →
      constants.foldl renderConstantsStep acc = acc := by
  induction constants with
  | nil => intro acc _; rfl
  | cons e rest ih =>
    intro acc hall
    have hstep : renderConstantsStep acc e = acc := by
      by_cases hne : e.2 = []
      · exact renderConstantsStep_empty acc e hne
      · obtain ⟨c, hc⟩ := hall e (List.mem_cons_self _ _) hne
        exact renderConstantsStep_done acc e c hc
    rw [List.foldl_cons, hstep]
    exact ih acc (fun entry hmem => hall entry (List.mem_cons_of_mem _ hmem))

/-! ### The merge loop -/

theorem mergeCodeMap_eq_foldl (mappings : TypeScriptMappings) (codeMap : GoMap (GoMap code)) :
    ∀ acc : GoMap (GoMap code),
      mergeCodeMap mappings codeMap acc = (mergeWrites mappings codeMap).foldl applyWrite acc := by
  unfold mergeCodeMap mergeWrites
  induction mappings with
  | nil => intro acc; rfl
  | cons e rest ih =>
    intro acc
    rw [List.foldl_cons, ih, List.flatMap_cons, List.foldl_append, List.foldl_map]
    rfl

theorem lookupUnit_applyWrite_self (acc : GoMap (GoMap code)) (w : UnitWrite) :
    lookupUnit (applyWrite acc w) w.1 w.2.1 = some w.2.2 :=
  lookupUnit_setUnit_self _ _ _ _

theorem lookupUnit_applyWrite_ne (acc : GoMap (GoMap code)) (w : UnitWrite) (p u : String)
    (hne : ¬ (p = w.1 ∧ u = w.2.1)) :
    lookupUnit (applyWrite acc w) p u = lookupUnit acc p u := by
  unfold applyWrite
  rw [lookupUnit_setUnit_ne _ _ _ _ _ _ hne, lookupUnit_ensure]

theorem lookupUnit_foldl_writes_other (writes : List UnitWrite) :
    ∀ (acc : GoMap (GoMap code)) (p u : String),
      (∀ w ∈ writes, ¬ (p = w.1 ∧ u = w.2.1)) →
      lookupUnit (writes.foldl applyWrite acc) p u = lookupUnit acc p u := by
  induction writes with
  | nil => intro acc p u _; rfl
  | cons w rest ih =>
    intro acc p u hall
    rw [List.foldl_cons, ih _ p u (fun w' hw' => hall w' (List.mem_cons_of_mem _ hw')),
      lookupUnit_applyWrite_ne acc w p u (hall w (List.mem_cons_self _ _))]

theorem lookupUnit_foldl_writes_keep (writes : List UnitWrite) :
    ∀ (acc : GoMap (GoMap code)) (p u : String) (c : code),
      lookupUnit acc p u = some c →
      (∀ w ∈ writes, p = w.1 ∧ u = w.2.1 → w.2.2 = c) →
      lookupUnit (writes.foldl applyWrite acc) p u = some c := by
  induction writes with
  | nil => intro acc p u c h _; exact h
  | cons w rest ih =>
    intro acc p u c h hall
    rw [List.foldl_cons]
    apply ih _ p u c _ (fun w' hw' => hall w' (List.mem_cons_of_mem _ hw'))
    by_cases hw : p = w.1 ∧ u = w.2.1
    · have hc := hall w (List.mem_cons_self _ _) hw
      obtain ⟨hp, hu⟩ := hw
      subst hp hu
      rw [← hc]
      exact lookupUnit_applyWrite_self acc w
    · rw [lookupUnit_applyWrite_ne acc w p u hw]
      exact h

theorem lookupUnit_foldl_writes_mem (writes : List UnitWrite) :
    ∀ acc : GoMap (GoMap code),
      (∀ w ∈ writes, ∀ w' ∈ writes, w.1 = w'.1 → w.2.1 = w'.2.1 → w.2.2 = w'.2.2) →
      ∀ w ∈ writes, lookupUnit (writes.foldl applyWrite acc) w.1 w.2.1 = some w.2.2 := by
  induction writes with
  | nil => intro acc _ w hw; simp at hw
  | cons w0 rest ih =>
    intro acc hfun w hw
    rw [List.foldl_cons]
    rcases List.mem_cons.mp hw with heq | hin
    · subst heq
      apply lookupUnit_foldl_writes_keep rest _ _ _ _ (lookupUnit_applyWrite_self acc w)
      intro w' hw' hsame
      exact hfun w' (List.mem_cons_of_mem _ hw') w (List.mem_cons_self _ _) hsame.1.symm
        hsame.2.symm
    · exact ih _ (fun a ha b hb => hfun a (List.mem_cons_of_mem _ ha) b
        (List.mem_cons_of_mem _ hb)) w hin

theorem foldl_writes_eq_self (writes : List UnitWrite) :
    ∀ acc : GoMap (GoMap code),
      (∀ w ∈ writes, lookupUnit acc w.1 w.2.1 = some w.2.2) →
      writes.foldl applyWrite acc = acc := by
  induction writes with
  | nil => intro acc _; rfl
  | cons w rest ih =>
    intro acc hall
    have hstep : applyWrite acc w = acc :=
      setUnit_ensure_eq_self acc w.1 w.2.1 w.2.2 (hall w (List.mem_cons_self _ _))
    rw [List.foldl_cons, hstep]
    exact ih acc (fun w' hw' => hall w' (List.mem_cons_of_mem _ hw'))

theorem mem_mergeWrites (mappings : TypeScriptMappings) (codeMap : GoMap (GoMap code))
    (w : UnitWrite) (hw : w ∈ mergeWrites mappings codeMap) :
    ∃ inner, codeMap.lookup w.1 = some inner ∧ (w.2.1, w.2.2) ∈ inner := by
  simp only [mergeWrites, List.mem_flatMap, List.mem_map] at hw
  obtain ⟨entry, _, structUnit, hin, heq⟩ := hw
  subst heq
  cases hl : codeMap.lookup entry.2.GoPackage with
  | none => simp [hl] at hin
  | some inner =>
    simp only [hl, Option.getD_some] at hin
    exact ⟨inner, rfl, hin⟩

/-! ### Invariants of the loop over the structures -/

theorem initCodeMap_units (mappings : TypeScriptMappings) :
    ∀ acc : GoMap (GoMap code), (∀ entry ∈ acc, entry.2 = []) →
      ∀ entry ∈ mappings.foldl (fun codeMap e => codeMap.set e.2.GoPackage []) acc,
        entry.2 = [] := by
  induction mappings with
  | nil => intro acc h; exact h
  | cons e rest ih =>
    intro acc h
    rw [List.foldl_cons]
    apply ih
    intro entry hmem
    rcases GoMap.mem_set acc _ _ entry hmem with heq | hin
    · rw [heq]
    · exact h entry hin

theorem renderStructsLoop_units (mappings : TypeScriptMappings) (P : GoMap code → Prop)
    (Q : Struct → Prop)
    (hP : ∀ (inner : GoMap code) (s : Struct) (c : code), Q s → P inner →
      P (inner.set s.Name c))
    (structs : List (String × Option Struct)) :
    ∀ codeMap result : GoMap (GoMap code),
      (∀ entry ∈ structs, ∀ s, entry.2 = some s → Q s) →
      (∀ entry ∈ codeMap, P entry.2) →
      renderStructsLoop mappings structs codeMap = .ok result →
      ∀ entry ∈ result, P entry.2 := by
  induction structs with
  | nil =>
    intro codeMap result _ hinv h
    simp only [renderStructsLoop, Except.ok.injEq] at h
    subst h
    exact hinv
  | cons e rest ih =>
    intro codeMap result hQ hinv h
    rcases e with ⟨name, str⟩
    cases str with
    | none => simp [renderStructsLoop] at h
    | some s =>
      cases hl : codeMap.lookup s.Package with
      | none => simp [renderStructsLoop, hl] at h
      | some packageCodeMap =>
        simp only [renderStructsLoop, hl] at h
        refine ih _ result (fun entry hmem => hQ entry (List.mem_cons_of_mem _ hmem)) ?_ h
        intro entry hmem
        rcases GoMap.mem_set codeMap _ _ entry hmem with heq | hin
        · rw [heq]
          exact hP packageCodeMap s _ (hQ (name, some s) (List.mem_cons_self _ _) s rfl)
            (hinv (s.Package, packageCodeMap) (GoMap.mem_of_lookup codeMap _ _ hl))
        · exact hinv entry hin

/-! ### `RenderStructsToPackages`: the accumulator after a call without error -/

theorem RenderStructsToPackages_of_ok (structs : GoMap (Option Struct))
    (mappings : TypeScriptMappings) (constants : GoMap (GoMap BasicLit))
    (mappedTypeScript codeMap : GoMap (GoMap code))
    (hloop : renderStructsLoop mappings structs (initCodeMap mappings) = .ok codeMap) :
    RenderStructsToPackages structs mappings constants mappedTypeScript =
      (none, constants.foldl renderConstantsStep
        ((mergeWrites mappings codeMap).foldl applyWrite mappedTypeScript)) := by
  simp only [RenderStructsToPackages, hloop, mergeCodeMap_eq_foldl]

theorem renderStructsLoop_of_no_error (structs : GoMap (Option Struct))
    (mappings : TypeScriptMappings) (constants : GoMap (GoMap BasicLit))
    (mappedTypeScript : GoMap (GoMap code))
    (hok : (RenderStructsToPackages structs mappings constants mappedTypeScript).1 = none) :
    ∃ codeMap, renderStructsLoop mappings structs (initCodeMap mappings) = .ok codeMap := by
  cases hloop : renderStructsLoop mappings structs (initCodeMap mappings) with
  | ok codeMap => exact ⟨codeMap, rfl⟩
  | error err => simp [RenderStructsToPackages, hloop] at hok

theorem mergeWrites_functional (structs : GoMap (Option Struct)) (mappings : TypeScriptMappings)
    (codeMap : GoMap (GoMap code))
    (hloop : renderStructsLoop mappings structs (initCodeMap mappings) = .ok codeMap) :
    ∀ w ∈ mergeWrites mappings codeMap, ∀ w' ∈ mergeWrites mappings codeMap,
      w.1 = w'.1 → w.2.1 = w'.2.1 → w.2.2 = w'.2.2 := by
  have hnodup : ∀ entry ∈ codeMap, entry.2.keys.Nodup :=
    renderStructsLoop_units mappings (fun inner => inner.keys.Nodup) (fun _ => True)
      (fun inner s c _ h => GoMap.nodup_keys_set inner s.Name c h) structs _ codeMap
      (fun _ _ _ _ => trivial)
      (fun entry hmem => by
        rw [initCodeMap_units mappings [] (by simp) entry hmem]
        simp [GoMap.keys])
      hloop
  intro w hw w' hw' hp hu
  obtain ⟨inner, hl, hin⟩ := mem_mergeWrites mappings codeMap w hw
  obtain ⟨inner', hl', hin'⟩ := mem_mergeWrites mappings codeMap w' hw'
  have hi : inner = inner' := by
    rw [hp, hl'] at hl
    exact (Option.some.inj hl).symm
  rw [hi] at hin
  have hn := hnodup (w'.1, inner') (GoMap.mem_of_lookup codeMap _ _ hl')
  have h1 := GoMap.lookup_of_mem inner' hn _ _ hin
  have h2 := GoMap.lookup_of_mem inner' hn _ _ hin'
  rw [hu, h2] at h1
  exact (Option.some.inj h1).symm

theorem mergeWrites_names (structs : GoMap (Option Struct)) (mappings : TypeScriptMappings)
    (codeMap : GoMap (GoMap code))
    (hloop : renderStructsLoop mappings structs (initCodeMap mappings) = .ok codeMap)
    (unit : String) (hname : ∀ entry ∈ structs, ∀ s, entry.2 = some s → s.Name ≠ unit) :
    ∀ w ∈ mergeWrites mappings codeMap, w.2.1 ≠ unit := by
  have hkeys : ∀ entry ∈ codeMap, unit ∉ entry.2.keys :=
    renderStructsLoop_units mappings (fun inner => unit ∉ inner.keys) (fun s => s.Name ≠ unit)
      (fun inner s c hs h hmem => by
        rcases (GoMap.mem_keys_set inner s.Name c unit).mp hmem with heq | hin
        · exact hs heq.symm
        · exact h hin)
      structs _ codeMap hname
      (fun entry hmem => by
        rw [initCodeMap_units mappings [] (by simp) entry hmem]
        simp [GoMap.keys])
      hloop
  intro w hw heq
  obtain ⟨inner, hl, hin⟩ := mem_mergeWrites mappings codeMap w hw
  apply hkeys (w.1, inner) (GoMap.mem_of_lookup codeMap _ _ hl)
  simp only [GoMap.keys, List.mem_map]
  exact ⟨(w.2.1, w.2.2), hin, heq⟩

/-- C13: for a constant set with distinct names, the constants pseudo-unit of a Go package is
the comment line naming the package, the line `export const GoConst = {`, one entry line
`<name> : <literal>,` per constant and the closing line, the entry lines standing in strictly
ascending order of the constant name; the unit is the same for every order (permutation) of
the constant set; and a call of `RenderStructsToPackages` without error files this unit under
`__goConstants` for every package of the constants map with a non-empty constant set that has
no unit under that name once the structures are merged. -/
theorem renderConstants_sorted_lines (structs : GoMap (Option Struct))
    (mappings : TypeScriptMappings) (constants : GoMap (GoMap BasicLit))
    (mappedTypeScript : GoMap (GoMap code)) (p : String) (packageConstants : GoMap BasicLit)
    (hnodup : packageConstants.keys.Nodup) :
    (∃ sorted : List (String × BasicLit),
      sorted.Perm packageConstants ∧
      (sorted.map (fun entry => entry.1)).Sorted (fun a b => a < b) ∧
      renderConstants p packageConstants =
        code.fresh
          ([code.pre "\t" 1 ++ ("// constants from " ++ p),
              code.pre "\t" 1 ++ "export const GoConst = \x7b"] ++
            sorted.map
              (fun entry => code.pre "\t" 2 ++ (entry.1 ++ " : " ++ entry.2.Value ++ ",")) ++
            [code.pre "\t" 1 ++ "\x7d"])
          "\t" 1) ∧
    (∀ other : GoMap BasicLit, other.Perm packageConstants →
      renderConstants p other = renderConstants p packageConstants) ∧
    ((RenderStructsToPackages structs mappings constants mappedTypeScript).1 = none →
      constants.keys.Nodup → (p, packageConstants) ∈ constants → packageConstants ≠ [] →
      lookupUnit (RenderStructsToPackages structs mappings [] mappedTypeScript).2 p
        goConstPseudoPackage = none →
      lookupUnit (RenderStructsToPackages structs mappings constants mappedTypeScript).2 p
        goConstPseudoPackage = some (renderConstants p packageConstants)) := by
  refine ⟨⟨(packageConstants.keys.insertionSort (fun a b => a ≤ b)).map
      (constantEntry packageConstants), ?_, ?_, ?_⟩, ?_, ?_⟩
  · have h1 := (List.perm_insertionSort (fun a b : String => a ≤ b) packageConstants.keys).map
      (constantEntry packageConstants)
    have h2 : packageConstants.keys.map (constantEntry packageConstants) = packageConstants := by
      simp only [GoMap.keys, List.map_map]
      conv_rhs => rw [← List.map_id packageConstants]
      apply List.map_congr_left
      intro entry hmem
      exact constantEntry_of_mem packageConstants hnodup entry hmem
    rw [h2] at h1
    exact h1
  · have h3 : ((packageConstants.keys.insertionSort (fun a b => a ≤ b)).map
        (constantEntry packageConstants)).map (fun entry => entry.1) =
        packageConstants.keys.insertionSort (fun a b => a ≤ b) := by
      rw [List.map_map]
      conv_rhs => rw [← List.map_id (packageConstants.keys.insertionSort (fun a b => a ≤ b))]
      apply List.map_congr_left
      intro n _
      rfl
    rw [h3]
    exact List.Sorted.lt_of_le (List.sorted_insertionSort _ _)
      ((List.perm_insertionSort _ _).nodup_iff.mpr hnodup)
  · rw [renderConstants_eq]
    simp [specConstantLine, String.append_assoc, Function.comp_def]
  · exact fun other hperm => renderConstants_perm p packageConstants other hnodup hperm
  · intro hok hkeys hmem hne hnew
    obtain ⟨codeMap, hloop⟩ :=
      renderStructsLoop_of_no_error structs mappings constants mappedTypeScript hok
    rw [RenderStructsToPackages_of_ok structs mappings [] mappedTypeScript codeMap hloop] at hnew
    rw [RenderStructsToPackages_of_ok structs mappings constants mappedTypeScript codeMap hloop]
    exact lookupUnit_foldl_constants_emits constants _ p packageConstants hkeys hmem hne hnew

theorem renderConstants_sorted_lines_witness :
    renderConstants "pkg/c" [("A", { Value := "1" }), ("B", { Value := "2" })] =
      renderConstants "pkg/c" [("B", { Value := "2" }), ("A", { Value := "1" })] :=
  (renderConstants_sorted_lines exampleStructs exampleMappings exampleConstants
    exampleAccumulator "pkg/c" [("B", { Value := "2" }), ("A", { Value := "1" })]
    (by decide)).2.1 _ (List.Perm.swap _ _ _)

/-- C14 (as stated, refuted): the accumulator holds a constants pseudo-unit for the Go package
`pkg/a` under `__goConstants`; the structure set holds a structure of `pkg/a` that is itself
named `__goConstants`, and `pkg/a` is mapped.  The call returns no error, and afterwards the
unit under `__goConstants` is the interface of that structure, not the unit held before the
call. -/
theorem pseudo_unit_overwritten_by_structure :
    lookupUnit pseudoAccumulator "pkg/a" goConstPseudoPackage =
      some (code.fresh ["old constants"] "\t" 1) ∧
    (RenderStructsToPackages collidingStructs exampleMappings collidingConstants
      pseudoAccumulator).1 = none ∧
    lookupUnit
        (RenderStructsToPackages collidingStructs exampleMappings collidingConstants
          pseudoAccumulator).2 "pkg/a" goConstPseudoPackage =
      some (code.fresh
        ["\t// pkg/a.__goConstants", "\texport interface __goConstants \x7b", "\t\x7d"]
        "\t" 1) ∧
    lookupUnit
        (RenderStructsToPackages collidingStructs exampleMappings collidingConstants
          pseudoAccumulator).2 "pkg/a" goConstPseudoPackage ≠
      lookupUnit pseudoAccumulator "pkg/a" goConstPseudoPackage := by
  decide!

/-- C14 (amended): constant emission is idempotent per Go package.  For a call of
`RenderStructsToPackages` without error, writing "before emission" for the accumulator that the
same call yields with no constants at all: a unit that a package holds under `__goConstants`
before emission is still there after the call, whatever constant sets are passed; a package
all of whose constant sets are empty (or that has none) has after the call what it had before
emission; when no structure is named `__goConstants`, what a package holds under that name
before emission is what the accumulator held before the call, so a pseudo-unit held before the
call is left unchanged by the call and a package whose constant sets are empty gets none; and
calling a second time with the same inputs on the resulting accumulator gives that accumulator
again. -/
theorem RenderStructsToPackages_constants_idempotent (structs : GoMap (Option Struct))
    (mappings : TypeScriptMappings) (constants : GoMap (GoMap BasicLit))
    (mappedTypeScript : GoMap (GoMap code))
    (hok : (RenderStructsToPackages structs mappings constants mappedTypeScript).1 = none) :
    (∀ (p : String) (c : code),
      lookupUnit (RenderStructsToPackages structs mappings [] mappedTypeScript).2 p
        goConstPseudoPackage = some c →
      lookupUnit (RenderStructsToPackages structs mappings constants mappedTypeScript).2 p
        goConstPseudoPackage = some c) ∧
    (∀ p : String, (∀ entry ∈ constants, entry.1 = p → entry.2 = []) →
      lookupUnit (RenderStructsToPackages structs mappings constants mappedTypeScript).2 p
        goConstPseudoPackage =
      lookupUnit (RenderStructsToPackages structs mappings [] mappedTypeScript).2 p
        goConstPseudoPackage) ∧
    ((∀ entry ∈ structs, ∀ s, entry.2 = some s → s.Name ≠ goConstPseudoPackage) →
      ∀ p : String,
        lookupUnit (RenderStructsToPackages structs mappings [] mappedTypeScript).2 p
          goConstPseudoPackage = lookupUnit mappedTypeScript p goConstPseudoPackage) ∧
    ((∀ entry ∈ structs, ∀ s, entry.2 = some s → s.Name ≠ goConstPseudoPackage) →
      (∀ (p : String) (c : code),
        lookupUnit mappedTypeScript p goConstPseudoPackage = some c →
        lookupUnit (RenderStructsToPackages structs mappings constants mappedTypeScript).2 p
          goConstPseudoPackage = some c) ∧
      (∀ p : String, (∀ entry ∈ constants, entry.1 = p → entry.2 = []) →
        lookupUnit (RenderStructsToPackages structs mappings constants mappedTypeScript).2 p
          goConstPseudoPackage = lookupUnit mappedTypeScript p goConstPseudoPackage)) ∧
    RenderStructsToPackages structs mappings constants
        (RenderStructsToPackages structs mappings constants mappedTypeScript).2 =
      RenderStructsToPackages structs mappings constants mappedTypeScript := by
  obtain ⟨codeMap, hloop⟩ :=
    renderStructsLoop_of_no_error structs mappings constants mappedTypeScript hok
  have hcall := RenderStructsToPackages_of_ok structs mappings constants mappedTypeScript
    codeMap hloop
  have hbase := RenderStructsToPackages_of_ok structs mappings [] mappedTypeScript
    codeMap hloop
  simp only [List.foldl_nil] at hbase
  have hmergeKeeps : (∀ entry ∈ structs, ∀ s, entry.2 = some s →
      s.Name ≠ goConstPseudoPackage) → ∀ p : String,
      lookupUnit ((mergeWrites mappings codeMap).foldl applyWrite mappedTypeScript) p
        goConstPseudoPackage = lookupUnit mappedTypeScript p goConstPseudoPackage := by
    intro hname p
    apply lookupUnit_foldl_writes_other
    intro w hw hp
    exact mergeWrites_names structs mappings codeMap hloop goConstPseudoPackage hname w hw
      hp.2.symm
  refine ⟨?_, ?_, ?_, ?_, ?_⟩
  · intro p c hsome
    rw [hbase] at hsome
    rw [hcall]
    exact lookupUnit_foldl_constants_some constants _ p _ c hsome
  · intro p hempty
    rw [hbase, hcall]
    apply lookupUnit_foldl_constants_other
    intro entry hmem hne hp
    exact hne (hempty entry hmem hp.1.symm)
  · intro hname p
    rw [hbase]
    exact hmergeKeeps hname p
  · intro hname
    constructor
    · intro p c hsome
      rw [hcall]
      apply lookupUnit_foldl_constants_some
      rw [hmergeKeeps hname p]
      exact hsome
    · intro p hempty
      rw [hcall, ← hmergeKeeps hname p]
      apply lookupUnit_foldl_constants_other
      intro entry hmem hne hp
      exact hne (hempty entry hmem hp.1.symm)
  · rw [hcall]
    rw [RenderStructsToPackages_of_ok structs mappings constants _ codeMap hloop]
    have hmerge : (mergeWrites mappings codeMap).foldl applyWrite
        (constants.foldl renderConstantsStep
          ((mergeWrites mappings codeMap).foldl applyWrite mappedTypeScript)) =
        constants.foldl renderConstantsStep
          ((mergeWrites mappings codeMap).foldl applyWrite mappedTypeScript) := by
      apply foldl_writes_eq_self
      intro w hw
      apply lookupUnit_foldl_constants_some
      exact lookupUnit_foldl_writes_mem _ mappedTypeScript
        (mergeWrites_functional structs mappings codeMap hloop) w hw
    rw [hmerge]
    have hconst : constants.foldl renderConstantsStep
        (constants.foldl renderConstantsStep
          ((mergeWrites mappings codeMap).foldl applyWrite mappedTypeScript)) =
        constants.foldl renderConstantsStep
          ((mergeWrites mappings codeMap).foldl applyWrite mappedTypeScript) := by
      apply foldl_constants_eq_self
      intro entry hmem hne
      exact lookupUnit_foldl_constants_isSome constants _ entry hmem hne
    rw [hconst]

theorem RenderStructsToPackages_constants_idempotent_witness :
    lookupUnit
        (RenderStructsToPackages exampleStructs exampleMappings collidingConstants
          pseudoAccumulator).2 "pkg/a" goConstPseudoPackage =
      some (code.fresh ["old constants"] "\t" 1) ∧
    RenderStructsToPackages exampleStructs exampleMappings collidingConstants
        (RenderStructsToPackages exampleStructs exampleMappings collidingConstants
          pseudoAccumulator).2 =
      RenderStructsToPackages exampleStructs exampleMappings collidingConstants
        pseudoAccumulator :=
  ⟨((RenderStructsToPackages_constants_idempotent exampleStructs exampleMappings
      collidingConstants pseudoAccumulator (by decide)).2.2.2.1
      (by
        intro entry hmem s hs
        simp only [exampleStructs, List.mem_singleton] at hmem
        subst hmem
        cases hs
        decide)).1 "pkg/a" _ (by decide),
    (RenderStructsToPackages_constants_idempotent exampleStructs exampleMappings
      collidingConstants pseudoAccumulator (by decide)).2.2.2.2⟩

/-- C15 (as stated, refuted): with no structures and an empty module mapping, the Go package
`pkg/c` has a non-empty constant set and no mapping entry, yet `RenderStructsToPackages`
returns no error and the accumulator holds the constants pseudo-unit of `pkg/c` after the
call. -/
theorem unmapped_constants_are_emitted :
    (∃ packageConstants, ("pkg/c", packageConstants) ∈ exampleConstants ∧ packageConstants ≠ []) ∧
    ¬ hasMapping [] "pkg/c" ∧
    RenderStructsToPackages [] [] exampleConstants [] =
      (none,
        [("pkg/c",
          [("__goConstants",
            code.fresh
              ["\t// constants from pkg/c", "\texport const GoConst = \x7b", "\t\tA : 1,",
                "\t\tB : 2,", "\t\x7d"]
              "\t" 1)])]) := by
  refine ⟨⟨_, List.mem_cons_self _ _, by simp⟩, by simp [hasMapping], ?_⟩
  decide!

/-- C15 (amended): a Go package with a non-empty constant set needs no module-mapping entry:
whether `RenderStructsToPackages` returns an error does not depend on the constants, and
after a call without error every package of the constants map with a non-empty constant set,
mapped or not, holds a constants pseudo-unit in the accumulator. -/
theorem RenderStructsToPackages_constants_need_no_mapping (structs : GoMap (Option Struct))
    (mappings : TypeScriptMappings) (constants : GoMap (GoMap BasicLit))
    (mappedTypeScript : GoMap (GoMap code)) :
    (RenderStructsToPackages structs mappings constants mappedTypeScript).1 =
      (RenderStructsToPackages structs mappings [] mappedTypeScript).1 ∧
    ((RenderStructsToPackages structs mappings constants mappedTypeScript).1 = none →
      ∀ entry ∈ constants, entry.2 ≠ [] →
        ∃ c, lookupUnit (RenderStructsToPackages structs mappings constants mappedTypeScript).2
          entry.1 goConstPseudoPackage = some c) := by
  constructor
  · cases hloop : renderStructsLoop mappings structs (initCodeMap mappings) with
    | ok codeMap => simp only [RenderStructsToPackages, hloop]
    | error err => simp only [RenderStructsToPackages, hloop]
  · intro hok entry hmem hne
    obtain ⟨codeMap, hloop⟩ :=
      renderStructsLoop_of_no_error structs mappings constants mappedTypeScript hok
    rw [RenderStructsToPackages_of_ok structs mappings constants mappedTypeScript codeMap hloop]
    exact lookupUnit_foldl_constants_isSome constants _ entry hmem hne

theorem RenderStructsToPackages_constants_need_no_mapping_witness :
    ∃ c, lookupUnit (RenderStructsToPackages [] [] exampleConstants []).2 "pkg/c"
      goConstPseudoPackage = some c :=
  (RenderStructsToPackages_constants_need_no_mapping [] [] exampleConstants []).2 rfl
    ("pkg/c", [("B", { Value := "2" }), ("A", { Value := "1" })]) (List.mem_cons_self _ _)
    (by simp)

/-! ### `renderService` -/

theorem intercalate_go_append (sep : String) (l : List String) :
    ∀ x acc : String,
      String.intercalate.go (x ++ acc) sep l = x ++ String.intercalate.go acc sep l := by
  induction l with
  | nil => intro x acc; rfl
  | cons a rest ih =>
    intro x acc
    simp only [String.intercalate.go]
    rw [← ih x (acc ++ sep ++ a)]
    simp only [String.append_assoc]

theorem intercalate_cons_cons (sep a b : String) (l : List String) :
    sep.intercalate (a :: b :: l) = a ++ sep ++ sep.intercalate (b :: l) := by
  simp only [String.intercalate, String.intercalate.go]
  rw [intercalate_go_append sep l (a ++ sep) b]

theorem digitChar_toNat (k : Nat) (hk : k < 10) : (Nat.digitChar k).toNat - 48 = k := by
  interval_cases k <;> rfl

theorem decodeDigits_toDigitsCore (fuel : Nat) :
    ∀ (n : Nat) (ds : List Char), n < fuel →
      decodeDigits 0 (Nat.toDigitsCore 10 fuel n ds) = decodeDigits n ds := by
  induction fuel with
  | zero => intro n ds h; omega
  | succ f ih =>
    intro n ds h
    have hd := digitChar_toNat (n % 10) (Nat.mod_lt n (by decide))
    by_cases hz : n / 10 = 0
    · have hlt : n % 10 = n := Nat.mod_eq_of_lt (by omega)
      simp only [Nat.toDigitsCore, hz, if_true, decodeDigits, List.foldl_cons, hd]
      rw [hlt]
      simp
    · simp only [Nat.toDigitsCore, hz, if_false]
      rw [ih (n / 10) _ (by omega)]
      simp only [decodeDigits, List.foldl_cons, hd]
      congr 1
      omega

theorem repr_injective (i j : Nat) (h : Nat.repr i = Nat.repr j) : i = j := by
  have hd : Nat.toDigits 10 i = Nat.toDigits 10 j := by
    have := congrArg String.data h
    simpa [Nat.repr, List.asString] using this
  have hi := decodeDigits_toDigitsCore (i + 1) i [] (by omega)
  have hj := decodeDigits_toDigitsCore (j + 1) j [] (by omega)
  simp only [Nat.toDigits] at hd
  rw [hd, hj] at hi
  simpa [decodeDigits] using hi.symm

theorem renderArgs_from_two (h : Helpers) (mappings : TypeScriptMappings) (rest : List Field) :
    ∀ (index : Nat) (args callArgs : List String), 2 ≤ index →
      renderArgs h mappings index rest (args, callArgs) =
        (args ++ rest.map (specParameter mappings), callArgs ++ rest.map (fun arg => arg.Name)) := by
  induction rest with
  | nil => intro index args callArgs _; simp [renderArgs]
  | cons arg tail ih =>
    intro index args callArgs hindex
    have h0 : index ≠ 0 := by omega
    have h1 : index ≠ 1 := by omega
    simp only [renderArgs, h0, h1, false_and, if_false]
    rw [ih (index + 1) _ _ (by omega)]
    simp [specParameter]

theorem renderRetArgs_eq (mappings : TypeScriptMappings) (returns : List Field) :
    ∀ (index : Nat) (retArgs : List String),
      renderRetArgs mappings index returns retArgs =
        retArgs ++ (returns.enumFrom index).map
          (fun p => specRetName p.1 p.2 ++ ":" ++ p.2.Value.tsType mappings) := by
  induction returns with
  | nil => intro index retArgs; simp [renderRetArgs]
  | cons r tail ih =>
    intro index retArgs
    have hname : retArgName index r = specRetName index r := by
      unfold retArgName specRetName sprintIndex
      by_cases hr : r.tsName = ""
      · by_cases hi : index = 0
        · simp [hr, hi]
        · have hpos : index > 0 := by omega
          simp only [hr, String.length_empty, if_true, hpos, hi, if_false]
          rw [← String.append_assoc]
          rfl
      · have hlen : r.tsName.length ≠ 0 := by
          have := length_pos_of_ne_empty r.tsName hr
          omega
        simp [hr, hlen]
    simp only [renderRetArgs, ih, List.enumFrom_cons, List.map_cons, hname]
    simp

theorem renderMethod_fresh (h : Helpers) (mappings : TypeScriptMappings) (method : Method)
    (lines : List String) (indent : String) (tabs : Nat) :
    renderMethod h mappings (code.fresh lines indent tabs) method =
      code.fresh
        (lines ++ specMethodLines h method
          (renderArgs h mappings 0 method.Args ([], [])).1
          (renderArgs h mappings 0 method.Args ([], [])).2
          (renderRetArgs mappings 0 method.Return []) indent tabs)
        indent tabs := by
  have hq : ∀ x : String, ", " ++ ("success:(" ++ x) = ", success:(" ++ x := fun x => by
    rw [← String.append_assoc]; rfl
  unfold renderMethod specMethodLines
  by_cases hlen : (renderArgs h mappings 0 method.Args ([], [])).1.length > 0
  · simp [hlen, code.fresh, code.app, code.nl, code.l, code.ind, String.append_assoc, hq]
  · simp [hlen, code.fresh, code.app, code.nl, code.l, code.ind, String.append_assoc]

/-- C16: for a method whose argument 0 is of the output-writer type and whose argument 1 is of
the inbound-request type, the loop over the arguments drops exactly these two: the rendered
parameters and the call arguments are those of the arguments 2, 3, ... in their order (whatever
their types are), and the method is written with them: signature line, call line, closing
line. -/
theorem renderMethod_omits_framework_args (h : Helpers) (mappings : TypeScriptMappings)
    (method : Method) (writer request : Field) (rest : List Field) (lines : List String)
    (indent : String) (tabs : Nat)
    (hargs : method.Args = writer :: request :: rest)
    (hwriter : h.isHTTPResponseWriter writer.Value = true)
    (hrequest : h.isHTTPRequest request.Value = true) :
    renderArgs h mappings 0 method.Args ([], []) =
      (rest.map (fun arg => arg.tsName ++ ":" ++ arg.Value.tsType mappings),
        rest.map (fun arg => arg.Name)) ∧
    renderMethod h mappings (code.fresh lines indent tabs) method =
      code.fresh
        (lines ++ specMethodLines h method
          (rest.map (fun arg => arg.tsName ++ ":" ++ arg.Value.tsType mappings))
          (rest.map (fun arg => arg.Name))
          (renderRetArgs mappings 0 method.Return []) indent tabs)
        indent tabs := by
  have hloop : renderArgs h mappings 0 method.Args ([], []) =
      (rest.map (fun arg => arg.tsName ++ ":" ++ arg.Value.tsType mappings),
        rest.map (fun arg => arg.Name)) := by
    rw [hargs]
    simp only [renderArgs, hwriter, hrequest, and_self, if_true, zero_add, true_and,
      one_ne_zero, false_and, if_false]
    rw [renderArgs_from_two h mappings rest 2 [] [] (le_refl 2)]
    simp [specParameter]
  refine ⟨hloop, ?_⟩
  rw [renderMethod_fresh, hloop]

theorem renderMethod_omits_framework_args_witness :
    renderArgs httpHelpers [] 0 exampleMethod.Args ([], []) =
      ([idArg].map (fun arg => arg.tsName ++ ":" ++ arg.Value.tsType []),
        [idArg].map (fun arg => arg.Name)) ∧
    renderMethod httpHelpers [] (code.fresh [] "\t" 2) exampleMethod =
      code.fresh
        ([] ++ specMethodLines httpHelpers exampleMethod
          ([idArg].map (fun arg => arg.tsName ++ ":" ++ arg.Value.tsType []))
          ([idArg].map (fun arg => arg.Name))
          (renderRetArgs [] 0 exampleMethod.Return []) "\t" 2)
        "\t" 2 :=
  renderMethod_omits_framework_args httpHelpers [] exampleMethod writerArg requestArg [idArg] []
    "\t" 2 rfl rfl rfl

/-- C17: for a method whose argument 0 (if any) is not of the output-writer type and whose
argument 1 (if any) is not of the inbound-request type, the loop over the arguments keeps every
argument: the rendered parameters and the call arguments are those of all arguments in their
order, and the method is written with them. -/
theorem renderMethod_keeps_all_args (h : Helpers) (mappings : TypeScriptMappings)
    (method : Method) (lines : List String) (indent : String) (tabs : Nat)
    (hfirst : ∀ arg, method.Args[0]? = some arg → h.isHTTPResponseWriter arg.Value = false)
    (hsecond : ∀ arg, method.Args[1]? = some arg → h.isHTTPRequest arg.Value = false) :
    renderArgs h mappings 0 method.Args ([], []) =
      (method.Args.map (fun arg => arg.tsName ++ ":" ++ arg.Value.tsType mappings),
        method.Args.map (fun arg => arg.Name)) ∧
    renderMethod h mappings (code.fresh lines indent tabs) method =
      code.fresh
        (lines ++ specMethodLines h method
          (method.Args.map (fun arg => arg.tsName ++ ":" ++ arg.Value.tsType mappings))
          (method.Args.map (fun arg => arg.Name))
          (renderRetArgs mappings 0 method.Return []) indent tabs)
        indent tabs := by
  have hloop : renderArgs h mappings 0 method.Args ([], []) =
      (method.Args.map (fun arg => arg.tsName ++ ":" ++ arg.Value.tsType mappings),
        method.Args.map (fun arg => arg.Name)) := by
    cases hargs : method.Args with
    | nil => simp [renderArgs]
    | cons a tail =>
      have ha : h.isHTTPResponseWriter a.Value = false := hfirst a (by simp [hargs])
      cases tail with
      | nil => simp [renderArgs, ha]
      | cons b rest =>
        have hb : h.isHTTPRequest b.Value = false := hsecond b (by simp [hargs])
        have htail := renderArgs_from_two h mappings rest 2
          [a.tsName ++ ":" ++ a.Value.tsType mappings, b.tsName ++ ":" ++ b.Value.tsType mappings]
          [a.Name, b.Name] (le_refl 2)
        simp only [renderArgs, ha, hb, Bool.false_eq_true, and_false, if_false, zero_add,
          List.nil_append, List.cons_append, Nat.reduceAdd, htail]
        simp [specParameter]
  refine ⟨hloop, ?_⟩
  rw [renderMethod_fresh, hloop]

theorem renderMethod_keeps_all_args_witness :
    renderArgs httpHelpers [] 0 swappedMethod.Args ([], []) =
      (swappedMethod.Args.map (fun arg => arg.tsName ++ ":" ++ arg.Value.tsType []),
        swappedMethod.Args.map (fun arg => arg.Name)) ∧
    renderMethod httpHelpers [] (code.fresh [] "\t" 2) swappedMethod =
      code.fresh
        ([] ++ specMethodLines httpHelpers swappedMethod
          (swappedMethod.Args.map (fun arg => arg.tsName ++ ":" ++ arg.Value.tsType []))
          (swappedMethod.Args.map (fun arg => arg.Name))
          (renderRetArgs [] 0 swappedMethod.Return []) "\t" 2)
        "\t" 2 :=
  renderMethod_keeps_all_args httpHelpers [] swappedMethod [] "\t" 2
    (by
      intro arg harg
      have : arg = requestArg := by simpa [swappedMethod] using harg.symm
      subst this
      rfl)
    (by
      intro arg harg
      have : arg = writerArg := by simpa [swappedMethod] using harg.symm
      subst this
      rfl)

/-- C18: the parameters of the success callback are, for the return values in input order,
`<name>:<tsType>` where `<name>` is the effective name of the return value if it is non-empty,
else `ret` at index 0 and `ret_<index>` (decimal) at a later index; the method is written with
them joined by `, ` inside `success:(...) => void`; and the generated names of two different
indexes differ. -/
theorem renderMethod_success_parameters (h : Helpers) (mappings : TypeScriptMappings)
    (method : Method) (lines : List String) (indent : String) (tabs : Nat) :
    renderRetArgs mappings 0 method.Return [] =
      method.Return.enum.map
        (fun p =>
          (if p.2.tsName = "" then (if p.1 = 0 then "ret" else "ret_" ++ Nat.repr p.1)
            else p.2.tsName) ++ ":" ++ p.2.Value.tsType mappings) ∧
    renderMethod h mappings (code.fresh lines indent tabs) method =
      code.fresh
        (lines ++ specMethodLines h method
          (renderArgs h mappings 0 method.Args ([], [])).1
          (renderArgs h mappings 0 method.Args ([], [])).2
          (method.Return.enum.map
            (fun p =>
              (if p.2.tsName = "" then (if p.1 = 0 then "ret" else "ret_" ++ Nat.repr p.1)
                else p.2.tsName) ++ ":" ++ p.2.Value.tsType mappings))
          indent tabs)
        indent tabs ∧
    ∀ i j : Nat, i ≠ j →
      (if i = 0 then "ret" else "ret_" ++ Nat.repr i) ≠
        (if j = 0 then "ret" else "ret_" ++ Nat.repr j) := by
  have hret : renderRetArgs mappings 0 method.Return [] =
      method.Return.enum.map
        (fun p =>
          (if p.2.tsName = "" then (if p.1 = 0 then "ret" else "ret_" ++ Nat.repr p.1)
            else p.2.tsName) ++ ":" ++ p.2.Value.tsType mappings) := by
    rw [renderRetArgs_eq]
    simp [List.enum, specRetName]
  refine ⟨hret, ?_, ?_⟩
  · rw [renderMethod_fresh, hret]
  · intro i j hij heq
    have hlen : ∀ n : Nat, ("ret_" ++ Nat.repr n).length ≠ "ret".length := by
      intro n
      rw [String.length_append]
      have h4 : "ret_".length = 4 := by decide
      have h3 : "ret".length = 3 := by decide
      omega
    by_cases hi : i = 0
    · have hj : j ≠ 0 := fun hj => hij (hi.trans hj.symm)
      simp only [hi, hj, if_true, if_false] at heq
      exact hlen j (congrArg String.length heq).symm
    · by_cases hj : j = 0
      · simp only [hi, hj, if_true, if_false] at heq
        exact hlen i (congrArg String.length heq)
      · simp only [hi, hj, if_false] at heq
        have hdata := congrArg String.data heq
        simp only [String.data_append, List.append_cancel_left_eq] at hdata
        exact hij (repr_injective i j (String.ext hdata))

theorem renderMethod_success_parameters_witness :
    renderRetArgs [] 0 exampleMethod.Return [] = ["ret:string", "ret_1:boolean"] ∧
    (if (1 : Nat) = 0 then "ret" else "ret_" ++ Nat.repr 1) ≠
      (if (2 : Nat) = 0 then "ret" else "ret_" ++ Nat.repr 2) :=
  ⟨by decide,
    (renderMethod_success_parameters httpHelpers [] exampleMethod [] "\t" 2).2.2 1 2
      (by decide)⟩

theorem tsName_of_no_override (f : Field) (hnone : f.JSONInfo = none) : f.tsName = f.Name := by
  simp [Field.tsName, hnone]

/-- C20: at the method `Find(userID string)` whose argument carries the serialization override
name `user_id`, the rendered signature declares the parameter `user_id` while the call-argument
array of the `GoTSRPC.call` line names `userID`. -/
theorem renderMethod_call_argument_mismatch :
    renderArgs httpHelpers [] 0 overrideMethod.Args ([], []) =
      (["user_id:string"], ["userID"]) ∧
    renderMethod httpHelpers [] (code.fresh [] "\t" 2) overrideMethod =
      code.fresh
        ["\t\tfind(user_id:string, success:() => void, err:(request:XMLHttpRequest) => void) \x7b",
          "\t\t\tGoTSRPC.call(this.endPoint, \"Find\", [userID], success, err);",
          "\t\t\x7d"]
        "\t" 2 := by
  constructor
  · decide
  · decide

/-! ### `RenderTypeScriptServices` -/

theorem foldl_renderMethod_fresh (h : Helpers) (mappings : TypeScriptMappings)
    (methods : List Method) :
    ∀ (lines : List String) (indent : String) (tabs : Nat),
      methods.foldl (renderMethod h mappings) (code.fresh lines indent tabs) =
        code.fresh (lines ++ methods.flatMap (methodLines h mappings indent tabs))
          indent tabs := by
  induction methods with
  | nil => intro lines indent tabs; simp
  | cons m rest ih =>
    intro lines indent tabs
    rw [List.foldl_cons, renderMethod_fresh, ih]
    simp [methodLines, List.flatMap_cons]

theorem renderService_fresh (h : Helpers) (service : Service) (mappings : TypeScriptMappings)
    (lines : List String) (indent : String) (tabs : Nat) :
    renderService h service mappings (code.fresh lines indent tabs) =
      (code.fresh (lines ++ specServiceLines h mappings indent tabs service) indent tabs,
        none) := by
  unfold renderService
  simp only [code.l_fresh, code.ind_fresh_succ, foldl_renderMethod_fresh, code.ind_fresh_pred]
  simp [specServiceLines]

theorem renderServicesLoop_fresh (h : Helpers) (mappings : TypeScriptMappings)
    (services : List Service) :
    ∀ (lines : List String) (indent : String) (tabs : Nat),
      renderServicesLoop h mappings services (code.fresh lines indent tabs) =
        (code.fresh (lines ++ services.flatMap (specServiceLines h mappings indent tabs))
          indent tabs, none) := by
  induction services with
  | nil => intro lines indent tabs; simp [renderServicesLoop]
  | cons s rest ih =>
    intro lines indent tabs
    simp only [renderServicesLoop, renderService_fresh, ih]
    simp [List.flatMap_cons]

theorem RenderTypeScriptServices_eq (h : Helpers) (SkipGoTSRPC : Bool)
    (services : List Service) (mappings : TypeScriptMappings) (tsModuleName : String) :
    RenderTypeScriptServices h SkipGoTSRPC services mappings tsModuleName =
      ("\n".intercalate
        ((if SkipGoTSRPC = true then [] else [goTSRPCHelper]) ++
          ["module " ++ tsModuleName ++ " \x7b"] ++
          services.flatMap (specServiceLines h mappings "\t" 1) ++ ["\x7d"]), none) := by
  have h0 : newCode "\t" = code.fresh [] "\t" 0 := rfl
  have hpre : ∀ s : String, code.pre "\t" 0 ++ s = s := fun s => by simp [code.pre]
  unfold RenderTypeScriptServices
  cases SkipGoTSRPC
  · simp only [h0, Bool.not_false, if_true, code.l_fresh, code.ind_fresh_succ,
      renderServicesLoop_fresh, code.ind_fresh_pred, hpre]
    simp [code.string, code.fresh]
  · simp only [h0, Bool.not_true, Bool.false_eq_true, if_false, code.l_fresh,
      code.ind_fresh_succ, renderServicesLoop_fresh, code.ind_fresh_pred, hpre]
    simp [code.string, code.fresh]

/-- C19: `RenderTypeScriptServices` never returns an error; its text is the lines, joined by
newlines, of: the transport-helper block once when `SkipGoTSRPC` is false and not at all when
it is true, the line `module <tsModuleName> {`, the lines that `renderService` writes for the
services in input order (one level deep), and the closing line; so the text with the helper is
the helper block, a newline and the text without it. -/
theorem RenderTypeScriptServices_output (h : Helpers) (SkipGoTSRPC : Bool)
    (services : List Service) (mappings : TypeScriptMappings) (tsModuleName : String) :
    (RenderTypeScriptServices h SkipGoTSRPC services mappings tsModuleName).2 = none ∧
    (RenderTypeScriptServices h SkipGoTSRPC services mappings tsModuleName).1 =
      "\n".intercalate
        ((if SkipGoTSRPC = true then [] else [goTSRPCHelper]) ++
          ["module " ++ tsModuleName ++ " \x7b"] ++
          services.flatMap
            (fun service => (renderService h service mappings (code.fresh [] "\t" 1)).1.lines) ++
          ["\x7d"]) ∧
    (RenderTypeScriptServices h false services mappings tsModuleName).1 =
      goTSRPCHelper ++ "\n" ++
        (RenderTypeScriptServices h true services mappings tsModuleName).1 := by
  have hlines : (fun service =>
      (renderService h service mappings (code.fresh [] "\t" 1)).1.lines) =
      specServiceLines h mappings "\t" 1 := by
    funext service
    rw [renderService_fresh]
    simp [code.fresh]
  refine ⟨?_, ?_, ?_⟩
  · rw [RenderTypeScriptServices_eq]
  · rw [RenderTypeScriptServices_eq, hlines]
  · rw [RenderTypeScriptServices_eq, RenderTypeScriptServices_eq]
    simp only [Bool.false_eq_true, if_false, if_true, List.nil_append, List.singleton_append,
      List.cons_append]
    rw [intercalate_cons_cons]

end Gotsrpc
